import Mathlib

/-
Verification of the session-orchestrator worker (RitualWorker) of the
ai-browser-game repository, as a shallow embedding in Lean.

Conventions of the embedding:
* Wall-clock instants (`new Date(x).getTime()`, `Date.now()`) are integers
  (milliseconds since the epoch), type `Int`.
* The hot store (Redis) is a `Store` record: the lobby blobs plus the session
  lobby index are a list of `Lobby` records, the per-lobby elimination record
  and the per-(round, lobby) vote lists are functions.
* External collaborators (the AI service, the vote-casting users, the random
  shuffle) are an oracle record `World`.
* Broadcasts (Pusher triggers), per-player status writes and lobby status
  writes are recorded in an emission trace `List (Int × Action)`, each entry
  tagged with the wall-clock instant at which it is performed.
* `Array.prototype.sort` in Node 22 (the Dockerfile base image) is stable
  (ES2019), so `events.filter(t > now).sort(by time)[0]` is the first
  time-minimal element of the filtered list in generation order; the
  definition `firstMinByTime` computes exactly that element.

The authoritative source is the second draft of src/core/RitualWorker.ts
(lines 681-1372), the one the claims cite; the first draft's
`handleAiMessageStart` (lines 485-510) is embedded separately since it is the
variant carrying the topic-fallback logic.  Service methods called by the
worker but absent from src (getActiveLobbies, getVotingResults,
getRemainingPlayersByLobby, flushAll, clearVotes, the PLAYER_STATUS enum) are
modelled from the spec and marked as such in their doc comments.
-/

namespace RitualGame

/-- Player status values: the TS `Player.status` union
`"active" | "eliminated" | "winner"`.  Modelled from the spec: the
`PLAYER_STATUS` enum imported by the worker is not under src; its members
used by the worker (`ACTIVE`, `ELIMINATED`) correspond to the spec's
status set \x7bactive, eliminated, winner\x7d. -/
inductive PLAYER_STATUS where
  | ACTIVE
  | ELIMINATED
  | WINNER
deriving DecidableEq, Repr

/-- Player record (src/types, unnamed part: interface Player). -/
structure Player where
  id : Int
  session_id : Int
  wallet_address : String
  joined_at : String
  status : PLAYER_STATUS
  total_rounds_played : Int
deriving DecidableEq, Repr

/-- Round record with the eight phase instants (src/types, unnamed part:
interface Round, the variant with the eight timestamps). -/
structure Round where
  id : Int
  session_id : Int
  round_number : Int
  ai_message_start : Int
  ai_message_end : Int
  start_time : Int
  end_time : Int
  elimination_start : Int
  elimination_end : Int
  voting_start_time : Int
  voting_end_time : Int
deriving DecidableEq, Repr

/-- Session record (src/types/Session.ts); `session.rounds || []` and the
players list are embedded as always-present lists. -/
structure Session where
  id : Int
  name : String
  entry_fee : Int
  max_total_players : Nat
  total_rounds : Int
  start_time : Int
  end_time : Int
  rounds : List Round
  players : List Player
deriving DecidableEq, Repr

/-- Lobby status enum (src/types, unnamed part: enum LobbyStatus). -/
inductive LobbyStatus where
  | ACTIVE
  | INACTIVE
  | COMPLETED
deriving DecidableEq, Repr

/-- Lobby record stored in the hot store (src/types, unnamed part:
interface Lobby; the created_at field is irrelevant to the claims and
dropped). -/
structure Lobby where
  id : Nat
  session_id : Int
  players : List Player
  status : LobbyStatus
deriving DecidableEq, Repr

/-- Event types pushed by RitualWorker.getNextEvent. -/
inductive EventType where
  | SESSION_START
  | SESSION_END
  | AI_MESSAGE_START
  | AI_MESSAGE_END
  | ROUND_START
  | ROUND_END
  | ELIMINATION_START
  | ELIMINATION_END
  | VOTING_START
  | VOTING_END
deriving DecidableEq, Repr

/-- Timeline event: `\x7btype, time, round?\x7d` as built by getNextEvent. -/
structure Event where
  type : EventType
  time : Int
  round : Option Round := none
deriving DecidableEq, Repr

/-- The eight events pushed for one round, in the order of the `events.push`
call in RitualWorker.getNextEvent (lines 911-950). -/
def roundEvents (r : Round) : List Event :=
  [ { type := .AI_MESSAGE_START, time := r.ai_message_start, round := some r },
    { type := .AI_MESSAGE_END, time := r.ai_message_end, round := some r },
    { type := .ROUND_START, time := r.start_time, round := some r },
    { type := .ROUND_END, time := r.end_time, round := some r },
    { type := .ELIMINATION_START, time := r.elimination_start, round := some r },
    { type := .ELIMINATION_END, time := r.elimination_end, round := some r },
    { type := .VOTING_START, time := r.voting_start_time, round := some r },
    { type := .VOTING_END, time := r.voting_end_time, round := some r } ]

/-- The full event list built by RitualWorker.getNextEvent before filtering:
SESSION_START (only when now is before the session start), SESSION_END, then
the eight events of every round in sequence order. -/
def sessionEvents (s : Session) (now : Int) : List Event :=
  (if now < s.start_time then
    [{ type := .SESSION_START, time := s.start_time, round := none }]
   else []) ++
  [{ type := .SESSION_END, time := s.end_time, round := none }] ++
  s.rounds.flatMap roundEvents

/-- First element of minimal `time` in the list: the head of the list after a
stable sort by `time` (Node's `Array.prototype.sort` is stable), or `none`
for the empty list. -/
def firstMinByTime : List Event → Option Event
  | [] => none
  | e :: es =>
    match firstMinByTime es with
    | none => some e
    | some m => if e.time ≤ m.time then some e else some m

/-- RitualWorker.getNextEvent (second draft, lines 885-958): `null` when the
session is over (`now >= end_time`); otherwise the first future event after a
stable sort by time. -/
def getNextEvent (s : Session) (now : Int) : Option Event :=
  if s.end_time ≤ now then none
  else firstMinByTime ((sessionEvents s now).filter (fun e => now < e.time))

section TimelineLemmas

theorem firstMinByTime_eq_none {l : List Event} :
    firstMinByTime l = none ↔ l = [] := by
  cases l with
  | nil => simp [firstMinByTime]
  | cons e es =>
    simp only [firstMinByTime]
    cases h : firstMinByTime es with
    | none => simp
    | some m => by_cases hle : e.time ≤ m.time <;> simp [hle]

theorem firstMinByTime_mem {l : List Event} {e : Event}
    (h : firstMinByTime l = some e) : e ∈ l := by
  induction l with
  | nil => simp [firstMinByTime] at h
  | cons x xs ih =>
    simp only [firstMinByTime] at h
    cases hx : firstMinByTime xs with
    | none =>
      rw [hx] at h
      simp at h
      simp [h]
    | some m =>
      rw [hx] at h
      by_cases hle : x.time ≤ m.time
      · simp [hle] at h
        simp [h]
      · simp [hle] at h
        subst h
        exact List.mem_cons_of_mem _ (ih hx)

theorem firstMinByTime_min {l : List Event} {e : Event}
    (h : firstMinByTime l = some e) : ∀ x ∈ l, e.time ≤ x.time := by
  induction l generalizing e with
  | nil => simp [firstMinByTime] at h
  | cons x xs ih =>
    simp only [firstMinByTime] at h
    cases hx : firstMinByTime xs with
    | none =>
      rw [hx] at h
      simp at h
      subst h
      have : xs = [] := firstMinByTime_eq_none.mp hx
      subst this
      simp
    | some m =>
      rw [hx] at h
      by_cases hle : x.time ≤ m.time
      · simp [hle] at h
        subst h
        intro y hy
        rcases List.mem_cons.mp hy with hy | hy
        · subst hy; exact le_refl _
        · exact le_trans hle (ih hx y hy)
      · simp [hle] at h
        subst h
        intro y hy
        rcases List.mem_cons.mp hy with hy | hy
        · subst hy; exact le_of_not_le hle
        · exact ih hx y hy

/-- Stability: the returned event is the first of the minimal time, so every
element preceding it in the list has strictly larger time. -/
theorem firstMinByTime_first {l : List Event} {e : Event}
    (h : firstMinByTime l = some e) :
    ∃ l₁ l₂, l = l₁ ++ e :: l₂ ∧ ∀ x ∈ l₁, e.time < x.time := by
  induction l with
  | nil => simp [firstMinByTime] at h
  | cons x xs ih =>
    simp only [firstMinByTime] at h
    cases hx : firstMinByTime xs with
    | none =>
      rw [hx] at h
      simp at h
      subst h
      exact ⟨[], xs, rfl, by simp⟩
    | some m =>
      rw [hx] at h
      by_cases hle : x.time ≤ m.time
      · simp [hle] at h
        subst h
        exact ⟨[], xs, rfl, by simp⟩
      · simp [hle] at h
        subst h
        obtain ⟨l₁, l₂, heq, hgt⟩ := ih hx
        refine ⟨x :: l₁, l₂, by simp [heq], ?_⟩
        intro y hy
        rcases List.mem_cons.mp hy with hy | hy
        · subst hy; exact lt_of_not_le hle
        · exact hgt y hy

theorem sessionEnd_mem_sessionEvents (s : Session) (now : Int) :
    ({ type := .SESSION_END, time := s.end_time, round := none } : Event) ∈
      sessionEvents s now := by
  simp [sessionEvents]

theorem sessionStart_mem_sessionEvents (s : Session) (now : Int)
    (hlt : now < s.start_time) :
    ({ type := .SESSION_START, time := s.start_time, round := none } : Event) ∈
      sessionEvents s now := by
  simp [sessionEvents, hlt]

/-- Events of type SESSION_START occur in the timeline only while now is
before the session start (the round generator never produces one). -/
theorem sessionStart_only_before_start {s : Session} {now : Int} {e : Event}
    (he : e ∈ sessionEvents s now) (ht : e.type = .SESSION_START) :
    now < s.start_time := by
  by_contra hge
  simp only [sessionEvents, if_neg hge, List.nil_append] at he
  rcases List.mem_cons.mp he with h | h
  · subst h; simp at ht
  · obtain ⟨r, _, hr⟩ := List.mem_flatMap.mp h
    simp [roundEvents] at hr
    rcases hr with h | h | h | h | h | h | h | h <;> (subst h; simp at ht)

end TimelineLemmas

/-- C1 (amended).  `getNextEvent` returns `none` exactly when
`now ≥ session.end_time`; otherwise it returns a timeline event with
timestamp strictly greater than `now` that is minimal in time among all
future timeline events — where the timeline contains SESSION_START only when
`now < session.start_time`, always contains SESSION_END, and contains the
eight phase events of every round — and among events of equal minimal
timestamp it returns the first in generation order (SESSION_START, then
SESSION_END, then each round's eight events in the canonical phase order,
rounds in sequence order).  In particular ties inside a single round are
broken by the canonical phase order, but a tied event generated earlier
(SESSION_END, or any event of an earlier round) is returned in place of a
later round's event; re-running after a restart mid-session therefore yields
the first unreached boundary in this generation order. -/
theorem getNextEvent_characterization (s : Session) (now : Int) :
    (getNextEvent s now = none ↔ s.end_time ≤ now) ∧
    (∀ e, getNextEvent s now = some e →
      e ∈ sessionEvents s now ∧ now < e.time ∧
      (∀ x ∈ sessionEvents s now, now < x.time → e.time ≤ x.time) ∧
      ∃ l₁ l₂,
        (sessionEvents s now).filter (fun x => now < x.time) = l₁ ++ e :: l₂ ∧
        ∀ x ∈ l₁, e.time < x.time) := by
  constructor
  · constructor
    · intro h
      by_contra hlt
      push_neg at hlt
      have hmem : ({ type := .SESSION_END, time := s.end_time, round := none } : Event) ∈
          (sessionEvents s now).filter (fun x => now < x.time) := by
        rw [List.mem_filter]
        exact ⟨sessionEnd_mem_sessionEvents s now, by simpa using hlt⟩
      rw [getNextEvent, if_neg (not_le.mpr hlt)] at h
      rcases firstMinByTime_eq_none.mp h with hnil
      rw [hnil] at hmem
      simp at hmem
    · intro h
      rw [getNextEvent, if_pos h]
  · intro e he
    have hnow : ¬ s.end_time ≤ now := by
      by_contra hle
      rw [getNextEvent, if_pos hle] at he
      exact Option.noConfusion he
    rw [getNextEvent, if_neg hnow] at he
    have hmem := firstMinByTime_mem he
    rw [List.mem_filter] at hmem
    refine ⟨hmem.1, by simpa using hmem.2, ?_, firstMinByTime_first he⟩
    intro x hx hxt
    refine firstMinByTime_min he x ?_
    rw [List.mem_filter]
    exact ⟨hx, by simpa using hxt⟩

/-- Witness for `getNextEvent_characterization`: applied to the concrete
session below at `now = 5`, whose next event is round 1's VOTING_END. -/
def c1Round1 : Round :=
  { id := 101, session_id := 1, round_number := 1,
    ai_message_start := 1, ai_message_end := 1, start_time := 2, end_time := 2,
    elimination_start := 3, elimination_end := 3,
    voting_start_time := 4, voting_end_time := 10 }

/-- Second round of the tie-break counterexample session: its
AI_MESSAGE_START coincides with round 1's VOTING_END. -/
def c1Round2 : Round :=
  { id := 102, session_id := 1, round_number := 2,
    ai_message_start := 10, ai_message_end := 11, start_time := 12,
    end_time := 13, elimination_start := 14, elimination_end := 15,
    voting_start_time := 16, voting_end_time := 17 }

/-- Two-round session in which round 1's `voting_end_time` equals round 2's
`ai_message_start` (both 10). -/
def c1Session : Session :=
  { id := 1, name := "s", entry_fee := 0, max_total_players := 10,
    total_rounds := 2, start_time := 0, end_time := 20,
    rounds := [c1Round1, c1Round2], players := [] }

theorem getNextEvent_characterization_witness :
    ({ type := .VOTING_END, time := 10, round := some c1Round1 } : Event) ∈
        sessionEvents c1Session 5 ∧
      (5 : Int) < 10 ∧
      ∀ x ∈ sessionEvents c1Session 5, 5 < x.time → (10 : Int) ≤ x.time := by
  have h := (getNextEvent_characterization c1Session 5).2
    { type := .VOTING_END, time := 10, round := some c1Round1 } (by decide)
  exact ⟨h.1, h.2.1, h.2.2.1⟩

/-- C1 counterexample: at `now = 5` in `c1Session`, the minimal future
timestamp 10 is attained by both round 2's AI_MESSAGE_START and round 1's
VOTING_END, yet `getNextEvent` returns the VOTING_END event — so ties with
equal timestamps are NOT broken by the canonical phase order
(AI_MESSAGE_START before VOTING_END); generation order wins instead. -/
theorem getNextEvent_tiebreak_counterexample :
    (getNextEvent c1Session 5).map Event.type = some .VOTING_END ∧
    ({ type := .AI_MESSAGE_START, time := 10, round := some c1Round2 } : Event) ∈
      sessionEvents c1Session 5 ∧
    (∀ x ∈ sessionEvents c1Session 5, 5 < x.time → (10 : Int) ≤ x.time) := by
  decide

/-- Placeholder player record built by PlayerService.getPlayers for a cached
wallet (src/services/PlayerService.ts lines 30-37): id 0, empty joined_at,
zero rounds played, status active. -/
def cachedPlayer (sessionId : Int) (walletAddress : String) : Player :=
  { id := 0, session_id := sessionId, wallet_address := walletAddress,
    joined_at := "", status := .ACTIVE, total_rounds_played := 0 }

/-- PlayerService.getPlayers (lines 22-61): `cachedWallets` is the redis set
`session:S:players`, `dbPlayers` the relational rows for the session.
Returns the player list together with the cache contents afterwards.  When
the cache is non-empty the relational store is never consulted. -/
def getPlayers (sessionId : Int) (cachedWallets : List String)
    (dbPlayers : List Player) : List Player × List String :=
  if cachedWallets.length > 0 then
    (cachedWallets.map (cachedPlayer sessionId), cachedWallets)
  else
    (dbPlayers,
     if dbPlayers.length > 0 then dbPlayers.map (fun p => p.wallet_address)
     else [])

/-- C10.  On the cached path (non-empty players set in the hot store),
getPlayers returns one placeholder record per cached wallet — id 0, empty
joined_at, total_rounds_played 0, status active — and the result does not
depend on the relational rows at all: a player recorded as eliminated there
is still returned as active. -/
theorem getPlayers_cached_placeholders (sessionId : Int)
    (cachedWallets : List String) (dbPlayers : List Player)
    (h : cachedWallets ≠ []) :
    (getPlayers sessionId cachedWallets dbPlayers).1 =
      cachedWallets.map (cachedPlayer sessionId) ∧
    (∀ p ∈ (getPlayers sessionId cachedWallets dbPlayers).1,
      p.id = 0 ∧ p.joined_at = "" ∧ p.total_rounds_played = 0 ∧
      p.status = .ACTIVE) ∧
    (∀ dbPlayers₂ : List Player,
      (getPlayers sessionId cachedWallets dbPlayers).1 =
        (getPlayers sessionId cachedWallets dbPlayers₂).1) := by
  have hlen : cachedWallets.length > 0 := List.length_pos.mpr h
  refine ⟨by simp [getPlayers, hlen], ?_, ?_⟩
  · intro p hp
    simp only [getPlayers, if_pos hlen] at hp
    obtain ⟨w, _, hw⟩ := List.mem_map.mp hp
    subst hw
    simp [cachedPlayer]
  · intro dbPlayers₂
    simp [getPlayers, hlen]

theorem getPlayers_cached_placeholders_witness :
    (getPlayers 7 ["walletA", "walletB"]
        [{ id := 3, session_id := 7, wallet_address := "walletA",
           joined_at := "2024-01-01", status := .ELIMINATED,
           total_rounds_played := 2 }]).1 =
      [cachedPlayer 7 "walletA", cachedPlayer 7 "walletB"] := by
  exact (getPlayers_cached_placeholders 7 ["walletA", "walletB"]
    [{ id := 3, session_id := 7, wallet_address := "walletA",
       joined_at := "2024-01-01", status := .ELIMINATED,
       total_rounds_played := 2 }] (by decide)).1

/-- Number of lobbies chosen by PlayerService.distributePlayersToLobbies
(lines 121-124), faithful to the JS computation: `Math.floor(total/max)`,
bumped to at least 1 when it is 0 or when the division leaves a
remainder. -/
def numLobbiesFor (totalPlayers maxPerLobby : Nat) : Nat :=
  if totalPlayers / maxPerLobby = 0 ∨ totalPlayers % maxPerLobby ≠ 0 then
    max 1 (totalPlayers / maxPerLobby)
  else totalPlayers / maxPerLobby

theorem numLobbiesFor_eq (totalPlayers maxPerLobby : Nat) :
    numLobbiesFor totalPlayers maxPerLobby =
      max 1 (totalPlayers / maxPerLobby) := by
  unfold numLobbiesFor
  by_cases h : totalPlayers / maxPerLobby = 0 ∨ totalPlayers % maxPerLobby ≠ 0
  · rw [if_pos h]
  · rw [if_neg h]
    rcases not_or.mp h with ⟨h1, h2⟩
    exact (max_eq_right (Nat.one_le_iff_ne_zero.mpr h1)).symm

/-- PlayerService.distributePlayersToLobbies (lines 102-193), its pure
partitioning part: the argument is the already shuffled player list (the
shuffle uses `Math.random` and is absorbed into the caller's oracle).  Lobby
`i` (0-based) takes the slice starting at `minPlayersPerLobby * i`; the last
lobby additionally takes the remainder.  Returns (lobbyId, players) pairs
with 1-based ids, as the source does. -/
def distributePlayersToLobbies (shuffledPlayers : List Player)
    (maxPerLobby : Nat) : List (Nat × List Player) :=
  if shuffledPlayers.length = 0 then []
  else
    let total := shuffledPlayers.length
    let numLobbies := numLobbiesFor total maxPerLobby
    let minPlayersPerLobby := total / numLobbies
    let extraPlayers := total - minPlayersPerLobby * numLobbies
    (List.range numLobbies).map (fun i =>
      (i + 1,
       (shuffledPlayers.drop (minPlayersPerLobby * i)).take
         (if i = numLobbies - 1 then minPlayersPerLobby + extraPlayers
          else minPlayersPerLobby)))

/-- Consecutive slices of the stated sizes flatten back to the whole list. -/
theorem slices_flatten {α : Type} (xs : List α) (base extra N : Nat)
    (hN : 1 ≤ N) (hlen : xs.length = base * N + extra) :
    ((List.range N).map (fun i =>
      (xs.drop (base * i)).take
        (if i = N - 1 then base + extra else base))).flatten = xs := by
  induction N generalizing xs with
  | zero => omega
  | succ n ih =>
    rcases Nat.eq_or_lt_of_le hN with h1 | h1
    · have hn : n = 0 := by omega
      subst hn
      have hr1 : List.range 1 = [0] := rfl
      rw [hr1]
      simp only [List.map_cons, List.map_nil, List.flatten_cons,
        List.flatten_nil, List.append_nil, Nat.mul_zero, List.drop_zero]
      have hle : xs.length ≤ base + extra := by omega
      simp [List.take_of_length_le hle]
    · have hn : 1 ≤ n := by omega
      rw [List.range_succ_eq_map]
      simp only [List.map_cons, List.map_map, List.flatten_cons]
      have hfirst :
          (if (0 : Nat) = n + 1 - 1 then base + extra else base) = base := by
        have hne : (0 : Nat) ≠ n + 1 - 1 := by omega
        rw [if_neg hne]
      rw [Nat.mul_zero, List.drop_zero, hfirst]
      have hrest :
          (List.range n).map
              ((fun i => (xs.drop (base * i)).take
                (if i = n + 1 - 1 then base + extra else base)) ∘ Nat.succ) =
            (List.range n).map (fun i =>
              ((xs.drop base).drop (base * i)).take
                (if i = n - 1 then base + extra else base)) := by
        apply List.map_congr_left
        intro i hi
        simp only [Function.comp_apply]
        have hidx : (xs.drop base).drop (base * i) =
            xs.drop (base * Nat.succ i) := by
          rw [List.drop_drop]
          congr 1
          rw [Nat.succ_eq_add_one]
          ring
        rw [← hidx]
        by_cases hlast : i = n - 1
        · have h2 : Nat.succ i = n + 1 - 1 := by omega
          rw [if_pos hlast, if_pos h2]
        · have h2 : ¬ (Nat.succ i = n + 1 - 1) := by omega
          rw [if_neg hlast, if_neg h2]
      have hlen2 : (xs.drop base).length = base * n + extra := by
        rw [List.length_drop, hlen]
        have hmul : base * (n + 1) = base * n + base := by ring
        omega
      rw [hrest, ih (xs.drop base) hn hlen2]
      exact List.take_append_drop base xs

/-- C5.  For n ≥ 1 (shuffled) players and per-lobby maximum m ≥ 1, with
N = max(1, ⌊n/m⌋), base = ⌊n/N⌋ and extra = n − base·N: the distribution
produces exactly N lobbies numbered 1..N, lobbies 1..N−1 receive exactly
`base` players, lobby N receives `base + extra`, and the lobbies' player
lists flatten back to the input list — so the total across lobbies is n and
every player is placed in exactly one lobby. -/
theorem distributePlayersToLobbies_spec (shuffledPlayers : List Player)
    (maxPerLobby n N base extra : Nat) (hp : shuffledPlayers ≠ [])
    (_hm : 1 ≤ maxPerLobby) (hn : n = shuffledPlayers.length)
    (hN : N = max 1 (n / maxPerLobby)) (hbase : base = n / N)
    (hextra : extra = n - base * N) :
    (distributePlayersToLobbies shuffledPlayers maxPerLobby).length = N ∧
    (distributePlayersToLobbies shuffledPlayers maxPerLobby).map Prod.fst =
      (List.range N).map (fun i => i + 1) ∧
    (distributePlayersToLobbies shuffledPlayers maxPerLobby).map
        (fun a => a.2.length) =
      (List.range N).map
        (fun i => if i = N - 1 then base + extra else base) ∧
    ((distributePlayersToLobbies shuffledPlayers maxPerLobby).map
        Prod.snd).flatten = shuffledPlayers ∧
    (((distributePlayersToLobbies shuffledPlayers maxPerLobby).map
        Prod.snd).map List.length).sum = n := by
  have hlen : shuffledPlayers.length ≠ 0 := by
    simpa using hp
  have hN1 : 1 ≤ N := by omega
  have hNle : base * N ≤ n := by
    rw [hbase]
    exact Nat.div_mul_le_self n N
  have hres : distributePlayersToLobbies shuffledPlayers maxPerLobby =
      (List.range N).map (fun i =>
        (i + 1,
         (shuffledPlayers.drop (base * i)).take
           (if i = N - 1 then base + extra else base))) := by
    simp only [distributePlayersToLobbies, if_neg hlen]
    rw [numLobbiesFor_eq, ← hn, ← hN, ← hbase, ← hextra]
  have hslice_len : ∀ i : Nat, i < N →
      ((shuffledPlayers.drop (base * i)).take
        (if i = N - 1 then base + extra else base)).length =
        (if i = N - 1 then base + extra else base) := by
    intro i hi
    rw [List.length_take, List.length_drop]
    by_cases hlast : i = N - 1
    · rw [if_pos hlast]
      subst hlast
      have h1 : base * (N - 1) + base = base * N := by
        have h2 : N - 1 + 1 = N := by omega
        calc base * (N - 1) + base = base * (N - 1 + 1) := by ring
          _ = base * N := by rw [h2]
      omega
    · rw [if_neg hlast]
      have hi2 : i + 1 ≤ N - 1 := by omega
      have h1 : base * (i + 1) ≤ base * (N - 1) :=
        Nat.mul_le_mul_left base hi2
      have h2 : base * (N - 1) ≤ base * N :=
        Nat.mul_le_mul_left base (by omega)
      have h3 : base * i + base = base * (i + 1) := by ring
      omega
  have hflat : ((distributePlayersToLobbies shuffledPlayers maxPerLobby).map
      Prod.snd).flatten = shuffledPlayers := by
    rw [hres, List.map_map]
    have hc : (Prod.snd ∘ fun i => ((i + 1 : Nat),
        (shuffledPlayers.drop (base * i)).take
          (if i = N - 1 then base + extra else base))) = fun i =>
        (shuffledPlayers.drop (base * i)).take
          (if i = N - 1 then base + extra else base) := rfl
    rw [hc]
    exact slices_flatten shuffledPlayers base extra N hN1 (by omega)
  refine ⟨by simp [hres], by simp [hres], ?_, hflat, ?_⟩
  · rw [hres, List.map_map]
    apply List.map_congr_left
    intro i hi
    simp only [Function.comp_apply]
    exact hslice_len i (List.mem_range.mp hi)
  · calc (((distributePlayersToLobbies shuffledPlayers maxPerLobby).map
          Prod.snd).map List.length).sum
        = ((distributePlayersToLobbies shuffledPlayers maxPerLobby).map
            Prod.snd).flatten.length := (List.length_flatten _).symm
      _ = n := by rw [hflat, hn]

theorem distributePlayersToLobbies_spec_witness :
    (distributePlayersToLobbies
      [cachedPlayer 1 "w1", cachedPlayer 1 "w2", cachedPlayer 1 "w3",
       cachedPlayer 1 "w4", cachedPlayer 1 "w5"] 2).map
        (fun a => a.2.length) = [2, 3] ∧
    ((distributePlayersToLobbies
      [cachedPlayer 1 "w1", cachedPlayer 1 "w2", cachedPlayer 1 "w3",
       cachedPlayer 1 "w4", cachedPlayer 1 "w5"] 2).map
        Prod.snd).flatten =
      [cachedPlayer 1 "w1", cachedPlayer 1 "w2", cachedPlayer 1 "w3",
       cachedPlayer 1 "w4", cachedPlayer 1 "w5"] := by
  have h := distributePlayersToLobbies_spec
    [cachedPlayer 1 "w1", cachedPlayer 1 "w2", cachedPlayer 1 "w3",
     cachedPlayer 1 "w4", cachedPlayer 1 "w5"] 2 5 2 2 1 (by decide)
    (by decide) (by decide) (by decide) (by decide) (by decide)
  refine ⟨?_, h.2.2.2.1⟩
  rw [h.2.2.1]
  decide

/-- Result of ApiClient.request (src/utils, second part, lines 84-106): a
network error, a non-2xx status or a JSON decode failure produce an error
value; success carries the decoded data.  The client never throws. -/
inductive ApiResponse (α : Type) where
  | failure (message : String)
  | success (data : α)
deriving DecidableEq, Repr

/-- The `data` field of an ApiResponse: `none` on every failure kind. -/
def ApiResponse.dataOpt {α : Type} : ApiResponse α → Option α
  | .failure _ => none
  | .success d => some d

/-- JS `x || fallback` on an optional string: the fallback is used when the
value is absent or empty (both are falsy). -/
def jsStringOr (x : Option String) (fallback : String) : String :=
  match x with
  | none => fallback
  | some s => if s = "" then fallback else s

/-- First-draft RitualWorker.handleAiMessageStart (lines 485-510), the
variant carrying the topic logic: `topicMessage = aiTopicResponse.data ||
"Discuss your strategy!"` is stored under the `topic` key and published in
the `rounds / ai-message-start` payload.  The handler is total: it never
aborts the phase. -/
def handleAiMessageStartV1 (aiTopicResponse : ApiResponse String) :
    String × String :=
  let topicMessage := jsStringOr aiTopicResponse.dataOpt
    "Discuss your strategy!"
  (topicMessage, topicMessage)

/-- C9.  Whenever the AI round-announcement request fails (error result or
missing data, so that the response carries no data), the first-draft
AI_MESSAGE_START handler stores and publishes the literal fallback topic
"Discuss your strategy!", and being a total function it completes the phase
instead of aborting. -/
theorem handleAiMessageStartV1_fallback (resp : ApiResponse String)
    (h : resp.dataOpt = none) :
    handleAiMessageStartV1 resp = ("Discuss your strategy!",
      "Discuss your strategy!") := by
  simp [handleAiMessageStartV1, jsStringOr, h]

theorem handleAiMessageStartV1_fallback_witness :
    handleAiMessageStartV1 (ApiResponse.failure "Error 503: unavailable") =
      ("Discuss your strategy!", "Discuss your strategy!") :=
  handleAiMessageStartV1_fallback (ApiResponse.failure
    "Error 503: unavailable") rfl

/-- The hot store as seen by the worker: the lobby blobs together with the
session lobby index are a list of lobby records; the per-lobby elimination
record (`elimination:lobby:L`) and the per-(round, lobby) vote lists
(`voting:session:S:lobby:L:round:R`) are functions of the keys. -/
structure Store where
  lobbies : List Lobby
  elimRecords : Nat → List String
  votes : Int → Nat → List String

/-- The empty hot store. -/
def Store.empty : Store :=
  { lobbies := [], elimRecords := fun _ => [], votes := fun _ _ => [] }

/-- Modelled from the spec: RedisService.flushAll is not under src.  Spec
section 4.9 (SESSION_START, SESSION_END): purge the hot state — every key is
removed. -/
def Store.flushAll (_st : Store) : Store := Store.empty

/-- Modelled from the spec: LobbyService.getActiveLobbies is not under src.
Spec section 4.6 lists it beside getAllLobbies; it yields the lobbies of the
session whose status is active. -/
def getActiveLobbies (st : Store) : List Lobby :=
  st.lobbies.filter (fun l => l.status = .ACTIVE)

/-- LobbyService.updateLobby (src/services/LobbyService.ts lines 189-209):
full replace of the stored blob under the lobby key (merge of the existing
record with every field of the given one); missing key is modelled as a
no-op since the worker only calls it for lobbies it has just read. -/
def Store.updateLobby (st : Store) (lobbyId : Nat) (newLobby : Lobby) :
    Store :=
  { st with lobbies :=
      st.lobbies.map (fun l => if l.id = lobbyId then newLobby else l) }

/-- LobbyService.updateLobbyStatus (lines 269-286): read the blob, set the
status field, write it back.  The worker only calls it for lobbies present
in the store (the missing-key path throws and is never reached in the
modelled flows). -/
def Store.updateLobbyStatus (st : Store) (lobbyId : Nat)
    (status : LobbyStatus) : Store :=
  { st with lobbies :=
      st.lobbies.map (fun l =>
        if l.id = lobbyId then { l with status := status } else l) }

/-- Modelled from the spec: LobbyService.getRemainingPlayersByLobby is not
under src.  Spec section 4.6 (get_remaining_players): the lobby's players
whose status is not ELIMINATED; empty if the lobby is missing or not
active. -/
def getRemainingPlayersByLobby (st : Store) (lobbyId : Nat) : List Player :=
  match st.lobbies.find? (fun l => l.id = lobbyId) with
  | none => []
  | some l =>
    if l.status = .ACTIVE then
      l.players.filter (fun p => p.status ≠ .ELIMINATED)
    else []

/-- Number of votes for one choice token in a vote list. -/
def countVotes (votes : List String) (choice : String) : Nat :=
  (votes.filter (fun v => v = choice)).length

/-- Modelled from the spec: LobbyService.getVotingResults is not under src.
Spec section 4.6: reads the vote list of (session, lobby, round) and returns
a mapping choice to count; the worker reads the continue and share entries,
missing entries counting 0 (`lobbyResults["continue"] || 0`). -/
def getVotingResults (st : Store) (roundId : Int) (lobbyId : Nat) :
    Nat × Nat :=
  let vs := st.votes roundId lobbyId
  (countVotes vs "continue", countVotes vs "share")

/-- Modelled from the spec: RedisService.clearVotes is not under src.  Spec
section 4.9 (VOTING_END): finally clear the lobby's vote tally keys. -/
def Store.clearVotes (st : Store) (lobbyId : Nat) : Store :=
  { st with votes := fun rid lid =>
      if lid = lobbyId then [] else st.votes rid lid }

/-- Deleting one vote list key (`redis.del(votingKey)` in
handleVotingStart). -/
def Store.delVotes (st : Store) (roundId : Int) (lobbyId : Nat) : Store :=
  { st with votes := fun rid lid =>
      if rid = roundId ∧ lid = lobbyId then [] else st.votes rid lid }

/-- The worker's external collaborators: the uniform shuffle of the player
distributor, the AI decideEliminations and roundAnnouncement endpoints
(`none` models every ApiClient failure kind, and `aiElim` is keyed by round
number and lobby id as in the POST body), and the votes cast by users into a
(round id, lobby id) vote list during the voting window. -/
structure World where
  shuffle : List Player → List Player
  aiElim : Int → Nat → Option (List String)
  aiTopic : Int → Option String
  votesCast : Int → Nat → List String

/-- Tags naming the worker's phase handlers, recorded in the trace when a
handler is invoked. -/
inductive HandlerTag where
  | sessionStart
  | aiMessageStart
  | aiMessageEnd
  | roundStart
  | roundEnd
  | eliminationStart
  | eliminationEnd
  | votingStart
  | votingEnd
  | sessionEnd
deriving DecidableEq, Repr

/-- Observable worker actions: handler invocations, Pusher broadcasts, hot
store status writes and the flushAll purge.  Each trace entry pairs an
action with the wall-clock instant at which it is performed. -/
inductive Action where
  | invoke (h : HandlerTag)
  | pubSessionStart (sessionId : Int)
  | pubSessionEnd (sessionId : Int)
  | pubRoundStart (roundNumber : Int)
  | pubRoundEnd (roundNumber : Int)
  | pubAiMessageStart (roundNumber : Int)
  | pubAiMessageEnd (roundNumber : Int)
  | pubVotingStart (roundNumber : Int)
  | pubLobbyCreated (lobbyId : Nat)
  | pubEliminationStart (lobbyId : Nat) (eliminatedPlayers : List String)
  | pubEliminationEnd (lobbyId : Nat) (remainingParticipants : List String)
  | pubVotingResult (lobbyId : Nat) (result : String)
  | pubGameEnd (lobbyId : Nat)
  | setLobbyStatus (lobbyId : Nat) (status : LobbyStatus)
  | setPlayerStatus (lobbyId : Nat) (wallet : String) (status : PLAYER_STATUS)
  | flush
deriving DecidableEq, Repr

/-- A worker emission trace. -/
abbrev Trace := List (Int × Action)

/-- Sequential per-lobby processing: thread the store through the lobby list
and concatenate the emissions, as the `for (const lobby of lobbies)` loops
do. -/
def foldLobbies (step : Store → Lobby → Store × Trace) :
    Store → List Lobby → Store × Trace
  | st, [] => (st, [])
  | st, l :: ls =>
    let p := step st l
    let q := foldLobbies step p.1 ls
    (q.1, p.2 ++ q.2)

/-- Second-draft RitualWorker.handleSessionStart (lines 1188-1233): flush
the hot store, load the players (the cache is empty after the flush, so the
relational rows are returned and the wallets cached); with no players, warn
and return — in particular WITHOUT publishing session-start.  Otherwise
distributePlayersToLobbies re-reads the now-cached wallet set — hitting the
cached path of getPlayers, so the lobbies hold placeholder records —
shuffles, partitions, writes each player ACTIVE, stores each lobby and its
index entry, publishes lobby-created per lobby, and finally (in a promise
chain the handler does not await) publishes session-start. -/
def handleSessionStart (w : World) (s : Session) (t : Int) (st : Store) :
    Store × Trace :=
  let st := st.flushAll
  let players := s.players
  if players.length = 0 then
    (st, [(t, .invoke .sessionStart), (t, .flush)])
  else
    let cachedWallets := players.map (fun p => p.wallet_address)
    let shuffled := w.shuffle (cachedWallets.map (cachedPlayer s.id))
    let assignment := distributePlayersToLobbies shuffled s.max_total_players
    let newLobbies : List Lobby := assignment.map (fun a =>
      { id := a.1, session_id := s.id, players := a.2, status := .ACTIVE })
    let st := { st with lobbies := st.lobbies ++ newLobbies }
    let distTrace : Trace := assignment.flatMap (fun a =>
      a.2.map (fun p =>
        ((t : Int), Action.setPlayerStatus a.1 p.wallet_address .ACTIVE)) ++
      [((t : Int), Action.pubLobbyCreated a.1)])
    if assignment.length = 0 then
      (st, [(t, .invoke .sessionStart), (t, .flush)] ++ distTrace)
    else
      (st, [(t, .invoke .sessionStart), (t, .flush)] ++ distTrace ++
        [(t, .pubSessionStart s.id)])

/-- Second-draft RitualWorker.handleAiMessageStart (lines 1167-1186): the
roundAnnouncement response is only logged; the handler publishes
`rounds / ai-message-start` with the session and round. -/
def handleAiMessageStart (w : World) (r : Round) (t : Int) (st : Store) :
    Store × Trace :=
  let _ := w.aiTopic r.round_number
  (st, [(t, .invoke .aiMessageStart), (t, .pubAiMessageStart r.round_number)])

/-- RitualWorker.handleAiMessageEnd (lines 1147-1165): publish
`rounds / ai-message-end`; no state mutation. -/
def handleAiMessageEnd (r : Round) (t : Int) (st : Store) : Store × Trace :=
  (st, [(t, .invoke .aiMessageEnd), (t, .pubAiMessageEnd r.round_number)])

/-- RitualWorker.handleRoundStart (lines 1235-1248): publish
`rounds / round-start`. -/
def handleRoundStart (r : Round) (t : Int) (st : Store) : Store × Trace :=
  (st, [(t, .invoke .roundStart), (t, .pubRoundStart r.round_number)])

/-- RitualWorker.handleRoundEnd (lines 1250-1263): publish
`sessions / round-end`. -/
def handleRoundEnd (r : Round) (t : Int) (st : Store) : Store × Trace :=
  (st, [(t, .invoke .roundEnd), (t, .pubRoundEnd r.round_number)])

/-- One lobby of second-draft RitualWorker.handleEliminationStart (lines
1042-1110): `eliminatedPlayers = aiResponse.data?.response || []` (the empty
list on any AI failure; the items' participant wallets are embedded as the
wallet strings); every roster entry whose wallet is listed is written
ELIMINATED to its per-player key and marked ELIMINATED in the roster, which
stays in the lobby blob; the blob is written back, the new eliminations are
appended to `elimination:lobby:L`, and `lobby-L / elimination-start` is
published with exactly the AI's list. -/
def elimStartLobbyStep (w : World) (r : Round) (t : Int) (st : Store)
    (lobby : Lobby) : Store × Trace :=
  let eliminatedPlayers := (w.aiElim r.round_number lobby.id).getD []
  let newPlayers := lobby.players.map (fun p =>
    if eliminatedPlayers.contains p.wallet_address then
      { p with status := .ELIMINATED }
    else p)
  let statusWrites : Trace :=
    (lobby.players.filter
        (fun p => eliminatedPlayers.contains p.wallet_address)).map
      (fun p => ((t : Int), Action.setPlayerStatus lobby.id p.wallet_address
        .ELIMINATED))
  let st := st.updateLobby lobby.id { lobby with players := newPlayers }
  let combined := st.elimRecords lobby.id ++ eliminatedPlayers
  let st := { st with elimRecords :=
      fun lid => if lid = lobby.id then combined else st.elimRecords lid }
  (st, statusWrites ++ [(t, .pubEliminationStart lobby.id eliminatedPlayers)])

/-- Second-draft RitualWorker.handleEliminationStart (lines 1033-1111):
process every active lobby of the session in order. -/
def handleEliminationStart (w : World) (_s : Session) (r : Round) (t : Int)
    (st : Store) : Store × Trace :=
  let q := foldLobbies (elimStartLobbyStep w r t) st (getActiveLobbies st)
  (q.1, (t, .invoke .eliminationStart) :: q.2)

/-- Second-draft RitualWorker.handleEliminationEnd (lines 1113-1145):
publish `lobby-L / elimination-end` with the lobby's wallet list (the roster
kept in the blob, eliminated entries included) for every active lobby. -/
def handleEliminationEnd (_r : Round) (t : Int) (st : Store) :
    Store × Trace :=
  let tr : Trace := (getActiveLobbies st).map (fun l =>
    ((t : Int), Action.pubEliminationEnd l.id
      (l.players.map (fun p => p.wallet_address))))
  (st, (t, .invoke .eliminationEnd) :: tr)

/-- The sole-survivor check inlined in the ELIMINATION_END case of
processEvent (lines 983-1013): for each active lobby, if exactly one player
remains the lobby is marked COMPLETED and `lobby-L / game-end` is
published. -/
def gameEndCheckStep (t : Int) (st : Store) (lobby : Lobby) :
    Store × Trace :=
  let remaining := getRemainingPlayersByLobby st lobby.id
  if remaining.length = 1 then
    (st.updateLobbyStatus lobby.id .COMPLETED,
     [(t, .setLobbyStatus lobby.id .COMPLETED), (t, .pubGameEnd lobby.id)])
  else (st, [])

/-- The sole-survivor sweep over the active lobbies (fetched before the
sweep, as `const activeLobbies = ...` does). -/
def gameEndChecks (t : Int) (st : Store) : Store × Trace :=
  foldLobbies (gameEndCheckStep t) st (getActiveLobbies st)

/-- RitualWorker.handleVotingStart (lines 1265-1284): publish
`rounds / voting-start`, then delete the vote list key of every active
lobby. -/
def handleVotingStart (r : Round) (t : Int) (st : Store) : Store × Trace :=
  let st' := (getActiveLobbies st).foldl
    (fun acc l => acc.delVotes r.id l.id) st
  (st', [(t, .invoke .votingStart), (t, .pubVotingStart r.round_number)])

/-- RitualWorker.handleSessionEnd (lines 1352-1371): publish
`sessions / session-end`, then flush the hot store. -/
def handleSessionEnd (s : Session) (t : Int) (st : Store) : Store × Trace :=
  (st.flushAll,
   [(t, .invoke .sessionEnd), (t, .pubSessionEnd s.id), (t, .flush)])

/-- One lobby of second-draft RitualWorker.handleVotingEnd (lines
1298-1345): read the tallies from the hot store; `continue >= share`
publishes voting-result continue; otherwise voting-result share is
published, the lobby is set COMPLETED, and handleSessionEnd runs (publishing
session-end and flushing the store).  Either way the lobby's vote keys are
cleared afterwards. -/
def votingEndLobbyStep (s : Session) (r : Round) (t : Int) (st : Store)
    (lobby : Lobby) : Store × Trace :=
  let res := getVotingResults st r.id lobby.id
  let continueVotes := res.1
  let shareVotes := res.2
  let p :=
    if shareVotes ≤ continueVotes then
      (st, ([((t : Int), Action.pubVotingResult lobby.id "continue")] :
        Trace))
    else
      let q := handleSessionEnd s t (st.updateLobbyStatus lobby.id
        .COMPLETED)
      (q.1, ((t, Action.pubVotingResult lobby.id "share") ::
        (t, Action.setLobbyStatus lobby.id .COMPLETED) :: q.2 : Trace))
  (p.1.clearVotes lobby.id, p.2)

/-- Second-draft RitualWorker.handleVotingEnd (lines 1286-1350): iterate the
active lobbies fetched at entry. -/
def handleVotingEnd (s : Session) (r : Round) (t : Int) (st : Store) :
    Store × Trace :=
  let q := foldLobbies (votingEndLobbyStep s r t) st (getActiveLobbies st)
  (q.1, (t, .invoke .votingEnd) :: q.2)

/-- External vote producers write into the per-(round, lobby) vote lists
during the voting window; by the VOTING_END instant the lists for this round
hold what was cast. -/
def fillVotes (w : World) (r : Round) (st : Store) : Store :=
  { st with votes := fun rid lid =>
      if rid = r.id then w.votesCast rid lid else st.votes rid lid }

/-- The ELIMINATION_END case body of processEvent (lines 981-1017):
handleEliminationEnd, the sole-survivor sweep, then handleVotingStart. -/
def eliminationEndCase (r : Round) (t : Int) (st : Store) : Store × Trace :=
  let p₁ := handleEliminationEnd r t st
  let p₂ := gameEndChecks t p₁.1
  let p₃ := handleVotingStart r t p₂.1
  (p₃.1, p₁.2 ++ p₂.2 ++ p₃.2)

/-- Second-draft RitualWorker.processEvent (lines 960-1031).  The switch has
no cases for ROUND_START, ELIMINATION_START or VOTING_START (they fall to
the default warning and do nothing), AI_MESSAGE_END also runs the
round-start handler, ROUND_END runs round-end and elimination-start and then
— the case has no break — falls through into the ELIMINATION_END body, and
VOTING_END also re-runs the AI message handler.  Events of a round-bound
type without a round (impossible among generated events) do nothing. -/
def processEvent (w : World) (s : Session) (e : Event) (t : Int)
    (st : Store) : Store × Trace :=
  match e.type, e.round with
  | .SESSION_START, _ => handleSessionStart w s t st
  | .AI_MESSAGE_START, some r => handleAiMessageStart w r t st
  | .AI_MESSAGE_END, some r =>
    let p₁ := handleAiMessageEnd r t st
    let p₂ := handleRoundStart r t p₁.1
    (p₂.1, p₁.2 ++ p₂.2)
  | .ROUND_END, some r =>
    let p₁ := handleRoundEnd r t st
    let p₂ := handleEliminationStart w s r t p₁.1
    let p₃ := eliminationEndCase r t p₂.1
    (p₃.1, p₁.2 ++ p₂.2 ++ p₃.2)
  | .ELIMINATION_END, some r => eliminationEndCase r t st
  | .VOTING_END, some r =>
    let st₀ := fillVotes w r st
    let p₁ := handleVotingEnd s r t st₀
    let p₂ := handleAiMessageStart w r t p₁.1
    (p₂.1, p₁.2 ++ p₂.2)
  | .SESSION_END, _ => handleSessionEnd s t st
  | _, _ => (st, [])

/-- RitualWorker.monitorSession (lines 824-844) with explicit fuel: fetch
the next event, sleep until its instant (`max now e.time`, sleepUntil never
sleeps on past deadlines), process it, and stop after SESSION_END or when no
event remains. -/
def runMonitor (w : World) (s : Session) :
    Nat → Int → Store → Store × Trace
  | 0, _, st => (st, [])
  | fuel + 1, now, st =>
    match getNextEvent s now with
    | none => (st, [])
    | some e =>
      let t := max now e.time
      let p := processEvent w s e t st
      if e.type = .SESSION_END then p
      else
        let q := runMonitor w s fuel t p.1
        (q.1, p.2 ++ q.2)

/-- Number of future events at the given instant; the monitor loop performs
at most this many iterations. -/
def futureCount (s : Session) (now : Int) : Nat :=
  ((sessionEvents s now).filter (fun e => now < e.time)).length

/-- RitualWorker.monitorSession: the fuel bound suffices, so this is the
full monitoring run from picking the session at instant `now` with hot
store `st`. -/
def monitorSession (w : World) (s : Session) (now : Int) (st : Store) :
    Store × Trace :=
  runMonitor w s (futureCount s now + 1) now st

/-- Count of trace entries whose action satisfies a predicate. -/
def countIf (tr : Trace) (p : Action → Bool) : Nat :=
  (tr.filter (fun x => p x.2)).length

/-- Recognizer for session-start broadcasts. -/
def isSessionStartPub : Action → Bool
  | .pubSessionStart _ => true
  | _ => false

/-- Recognizer for session-end broadcasts. -/
def isSessionEndPub : Action → Bool
  | .pubSessionEnd _ => true
  | _ => false

/-- Recognizer for per-lobby voting-result broadcasts. -/
def isVotingResultPub : Action → Bool
  | .pubVotingResult _ _ => true
  | _ => false

/-- Recognizer for per-lobby elimination-start broadcasts. -/
def isEliminationStartPub : Action → Bool
  | .pubEliminationStart _ _ => true
  | _ => false

/-- Recognizer for lobby-directed broadcasts (lobby creation, elimination
and voting traffic, game end). -/
def isLobbyPub : Action → Bool
  | .pubLobbyCreated _ => true
  | .pubEliminationStart _ _ => true
  | .pubEliminationEnd _ _ => true
  | .pubVotingResult _ _ => true
  | .pubGameEnd _ => true
  | _ => false

theorem countIf_append (a b : Trace) (p : Action → Bool) :
    countIf (a ++ b) p = countIf a p + countIf b p := by
  simp [countIf, List.filter_append]

/-- C3.  At VOTING_END, for a lobby with tallies (continue, share) read from
the hot store: if continue ≥ share the worker publishes voting-result
"continue" and performs no store change for the lobby beyond clearing its
vote keys (lobby record and status untouched); otherwise it publishes
voting-result "share" and sets the lobby COMPLETED (followed by the
session-end handler the code invokes there).  The handler emits exactly one
voting-result broadcast per active lobby. -/
theorem handleVotingEnd_spec (s : Session) (r : Round) (t : Int)
    (st : Store) (lobby : Lobby) :
    ((getVotingResults st r.id lobby.id).2 ≤
        (getVotingResults st r.id lobby.id).1 →
      votingEndLobbyStep s r t st lobby =
        (st.clearVotes lobby.id,
         [(t, .pubVotingResult lobby.id "continue")]) ∧
      (votingEndLobbyStep s r t st lobby).1.lobbies = st.lobbies) ∧
    ((getVotingResults st r.id lobby.id).1 <
        (getVotingResults st r.id lobby.id).2 →
      (votingEndLobbyStep s r t st lobby).2 =
        [(t, .pubVotingResult lobby.id "share"),
         (t, .setLobbyStatus lobby.id .COMPLETED),
         (t, .invoke .sessionEnd), (t, .pubSessionEnd s.id),
         (t, .flush)]) ∧
    countIf (handleVotingEnd s r t st).2 isVotingResultPub =
      (getActiveLobbies st).length := by
  refine ⟨?_, ?_, ?_⟩
  · intro hle
    have h : votingEndLobbyStep s r t st lobby =
        (st.clearVotes lobby.id,
         [(t, .pubVotingResult lobby.id "continue")]) := by
      simp only [votingEndLobbyStep, if_pos hle]
    refine ⟨h, ?_⟩
    rw [h]
    rfl
  · intro hlt
    have hnot : ¬ (getVotingResults st r.id lobby.id).2 ≤
        (getVotingResults st r.id lobby.id).1 := not_le.mpr hlt
    simp only [votingEndLobbyStep, if_neg hnot, handleSessionEnd]
  · have hstep : ∀ st₂ l,
        countIf (votingEndLobbyStep s r t st₂ l).2 isVotingResultPub = 1 := by
      intro st₂ l
      by_cases hle : (getVotingResults st₂ r.id l.id).2 ≤
          (getVotingResults st₂ r.id l.id).1
      · simp [votingEndLobbyStep, if_pos hle, countIf, isVotingResultPub]
      · simp [votingEndLobbyStep, if_neg hle, handleSessionEnd, countIf,
          isVotingResultPub, List.filter]
    have hfold : ∀ (ls : List Lobby) (st₂ : Store),
        countIf (foldLobbies (votingEndLobbyStep s r t) st₂ ls).2
          isVotingResultPub = ls.length := by
      intro ls
      induction ls with
      | nil => intro st₂; simp [foldLobbies, countIf]
      | cons l ls ih =>
        intro st₂
        simp only [foldLobbies]
        rw [countIf_append, hstep, ih, List.length_cons]
        omega
    simp only [handleVotingEnd]
    have hinv : countIf [((t : Int), Action.invoke .votingEnd)]
        isVotingResultPub = 0 := by
      simp [countIf, isVotingResultPub]
    calc countIf ((t, Action.invoke .votingEnd) ::
          (foldLobbies (votingEndLobbyStep s r t) st
            (getActiveLobbies st)).2) isVotingResultPub
        = countIf [((t : Int), Action.invoke .votingEnd)] isVotingResultPub +
          countIf (foldLobbies (votingEndLobbyStep s r t) st
            (getActiveLobbies st)).2 isVotingResultPub := by
          rw [← countIf_append]
          rfl
      _ = (getActiveLobbies st).length := by
          rw [hinv, hfold]
          simp

/-- Witness lobby for the handler-level theorems. -/
def wLobby : Lobby :=
  { id := 1, session_id := 1,
    players := [cachedPlayer 1 "A", cachedPlayer 1 "B"],
    status := .ACTIVE }

/-- Witness store holding the single active lobby and a 1-continue,
2-share vote list for round 201. -/
def wStore : Store :=
  { lobbies := [wLobby],
    elimRecords := fun _ => [],
    votes := fun rid lid =>
      if rid = 101 ∧ lid = 1 then ["share", "continue", "share"] else [] }

theorem handleVotingEnd_spec_witness :
    (votingEndLobbyStep c1Session c1Round1 8 wStore wLobby).2 =
      [(8, .pubVotingResult 1 "share"),
       (8, .setLobbyStatus 1 .COMPLETED),
       (8, .invoke .sessionEnd), (8, .pubSessionEnd 1), (8, .flush)] ∧
    countIf (handleVotingEnd c1Session c1Round1 8 wStore).2
      isVotingResultPub = 1 := by
  have h := handleVotingEnd_spec c1Session c1Round1 8 wStore wLobby
  refine ⟨h.2.1 (by decide), ?_⟩
  rw [h.2.2]
  decide

/-- C7.  When the AI decideEliminations call fails for a lobby (network
error, non-2xx or undecodable data — all of which make the response carry no
data), that lobby's step marks no player ELIMINATED (no per-player status
write appears), leaves the stored lobby records and the elimination records
unchanged, publishes an empty elimination-start payload, and the per-lobby
sweep still emits exactly one elimination-start broadcast for every lobby of
the list, so the remaining lobbies are processed rather than the phase
aborting. -/
theorem elimStart_ai_failure_spec (w : World) (r : Round) (t : Int)
    (st : Store) (lobby : Lobby)
    (hfail : w.aiElim r.round_number lobby.id = none)
    (hmem : ∀ l ∈ st.lobbies, l.id = lobby.id → l = lobby) :
    (elimStartLobbyStep w r t st lobby).1.lobbies = st.lobbies ∧
    (∀ lid, (elimStartLobbyStep w r t st lobby).1.elimRecords lid =
      st.elimRecords lid) ∧
    (elimStartLobbyStep w r t st lobby).2 =
      [(t, .pubEliminationStart lobby.id [])] ∧
    (∀ (lobbies₂ : List Lobby) (st₂ : Store),
      countIf (foldLobbies (elimStartLobbyStep w r t) st₂ lobbies₂).2
        isEliminationStartPub = lobbies₂.length) := by
  have hplayers : lobby.players.map (fun p =>
      if ([] : List String).contains p.wallet_address then
        { p with status := PLAYER_STATUS.ELIMINATED }
      else p) = lobby.players := by
    rw [List.map_congr_left (g := fun p => p)]
    · exact List.map_id lobby.players
    · intro p _
      simp [List.contains]
  refine ⟨?_, ?_, ?_, ?_⟩
  · simp only [elimStartLobbyStep, hfail, Option.getD_none, hplayers,
      Store.updateLobby]
    rw [List.map_congr_left (g := fun l => l)]
    · exact List.map_id st.lobbies
    · intro l hl
      by_cases hid : l.id = lobby.id
      · rw [if_pos hid, ← hmem l hl hid]
      · rw [if_neg hid]
  · intro lid
    simp only [elimStartLobbyStep, hfail, Option.getD_none, Store.updateLobby]
    by_cases hid : lid = lobby.id
    · subst hid
      simp
    · simp [hid]
  · simp [elimStartLobbyStep, hfail, List.contains]
  · intro lobbies₂
    have hstep : ∀ st₂ l,
        countIf (elimStartLobbyStep w r t st₂ l).2 isEliminationStartPub =
          1 := by
      intro st₂ l
      simp only [elimStartLobbyStep]
      rw [countIf_append]
      have h1 : countIf ((l.players.filter (fun p =>
          ((w.aiElim r.round_number l.id).getD []).contains
            p.wallet_address)).map
          (fun p => ((t : Int), Action.setPlayerStatus l.id p.wallet_address
            .ELIMINATED))) isEliminationStartPub = 0 := by
        simp only [countIf]
        rw [List.filter_map]
        simp [Function.comp, isEliminationStartPub]
      rw [h1]
      simp [countIf, isEliminationStartPub]
    induction lobbies₂ with
    | nil => intro st₂; simp [foldLobbies, countIf]
    | cons l ls ih =>
      intro st₂
      simp only [foldLobbies]
      rw [countIf_append, hstep, ih, List.length_cons]
      omega

theorem elimStart_ai_failure_spec_witness :
    (elimStartLobbyStep
      { shuffle := id, aiElim := fun _ _ => none, aiTopic := fun _ => none,
        votesCast := fun _ _ => [] }
      c1Round1 4 wStore wLobby).1.lobbies = wStore.lobbies ∧
    (elimStartLobbyStep
      { shuffle := id, aiElim := fun _ _ => none, aiTopic := fun _ => none,
        votesCast := fun _ _ => [] }
      c1Round1 4 wStore wLobby).2 =
      [(4, .pubEliminationStart 1 [])] := by
  have h := elimStart_ai_failure_spec
    { shuffle := id, aiElim := fun _ _ => none, aiTopic := fun _ => none,
      votesCast := fun _ _ => [] }
    c1Round1 4 wStore wLobby rfl (by decide)
  exact ⟨h.1, h.2.2.1⟩

/-- Registered player row in the relational store. -/
def regPlayer (w : String) : Player :=
  { id := 1, session_id := 1, wallet_address := w, joined_at := "j",
    status := .ACTIVE, total_rounds_played := 0 }

/-- First round of the concrete scenario sessions: strictly increasing
phase instants 1,2,3,4,5,6,7,8. -/
def exRound1 : Round :=
  { id := 201, session_id := 1, round_number := 1,
    ai_message_start := 1, ai_message_end := 2, start_time := 3,
    end_time := 4, elimination_start := 5, elimination_end := 6,
    voting_start_time := 7, voting_end_time := 8 }

/-- Second round of the concrete scenario sessions: instants 11..18. -/
def exRound2 : Round :=
  { id := 202, session_id := 1, round_number := 2,
    ai_message_start := 11, ai_message_end := 12, start_time := 13,
    end_time := 14, elimination_start := 15, elimination_end := 16,
    voting_start_time := 17, voting_end_time := 18 }

/-- Two-round session with three registered players A, B, C. -/
def exSession : Session :=
  { id := 1, name := "s", entry_fee := 0, max_total_players := 10,
    total_rounds := 2, start_time := 0, end_time := 30,
    rounds := [exRound1, exRound2],
    players := [regPlayer "A", regPlayer "B", regPlayer "C"] }

/-- Oracle whose AI eliminates wallet A in every round of every lobby, with
no votes cast (tallies 0-0 resolve to continue). -/
def exElimWorld : World :=
  { shuffle := id, aiElim := fun _ _ => some ["A"],
    aiTopic := fun _ => none, votesCast := fun _ _ => [] }

/-- The full monitoring trace of `exSession` under `exElimWorld`, picked at
instant -1 with an empty hot store. -/
def exTraceTwoRounds : Trace :=
  (monitorSession exElimWorld exSession (-1) Store.empty).2

/-- C2 counterexample: in the concrete run, the elimination-start handler is
invoked — and the elimination broadcast published — at instant 4, the
ROUND_END instant, strictly before its scheduled ELIMINATION_START instant 5
(at which nothing is dispatched); the ROUND_START event at instant 3
likewise dispatches no handler.  So phase handlers do NOT each run at their
own scheduled instants, and handling ROUND_END does perform elimination
work. -/
theorem phaseOrder_counterexample :
    exRound1.end_time = 4 ∧ exRound1.elimination_start = 5 ∧
    ((4 : Int), Action.invoke .eliminationStart) ∈ exTraceTwoRounds ∧
    ((4 : Int), Action.pubEliminationStart 1 ["A"]) ∈ exTraceTwoRounds ∧
    ((5 : Int), Action.invoke .eliminationStart) ∉ exTraceTwoRounds ∧
    ((3 : Int), Action.invoke .roundStart) ∉ exTraceTwoRounds := by
  decide

/-- C8 counterexample: wallet A is written ELIMINATED at instant 4 (round
1's elimination), yet the elimination-start broadcast of the same lobby at
instant 14 (round 2) again carries A in its eliminatedPlayers payload — the
worker republishes whatever the AI returns, without filtering wallets that
are already eliminated. -/
theorem noDoubleElim_counterexample :
    ((4 : Int), Action.setPlayerStatus 1 "A" .ELIMINATED) ∈
      exTraceTwoRounds ∧
    ((4 : Int), Action.pubEliminationStart 1 ["A"]) ∈ exTraceTwoRounds ∧
    ((14 : Int), Action.pubEliminationStart 1 ["A"]) ∈ exTraceTwoRounds := by
  decide

/-- Oracle with a failing AI and two "share" votes in every vote list. -/
def exShareWorld : World :=
  { shuffle := id, aiElim := fun _ _ => none,
    aiTopic := fun _ => none, votesCast := fun _ _ => ["share", "share"] }

/-- One-round variant of the concrete session. -/
def exSessionOneRound : Session :=
  { exSession with rounds := [exRound1], total_rounds := 1 }

/-- Monitoring trace of the one-round session under the share-voting
oracle. -/
def exShareTrace : Trace :=
  (monitorSession exShareWorld exSessionOneRound (-1) Store.empty).2

/-- C4 counterexample: when the lobby votes share at VOTING_END, the voting
handler itself runs handleSessionEnd, so the monitored session publishes
session-end TWICE (instants 8 and 30) although session-start is published
once — "exactly one session-end" fails. -/
theorem sessionEnd_once_counterexample :
    countIf exShareTrace isSessionStartPub = 1 ∧
    countIf exShareTrace isSessionEndPub = 2 := by
  decide

/-- The one-round session with an empty registered player set. -/
def exEmptySession : Session :=
  { exSessionOneRound with players := [] }

/-- Monitoring trace of the empty-player session. -/
def exEmptyTrace : Trace :=
  (monitorSession exShareWorld exEmptySession (-1) Store.empty).2

/-- C6 counterexample: with an empty player set the SESSION_START handler
returns before reaching the session-start publication, so NO session-start
event is published for the session (session-end is still published once at
SESSION_END) — refuting "still publishes the session-start event". -/
theorem emptySession_counterexample :
    countIf exEmptyTrace isSessionStartPub = 0 ∧
    countIf exEmptyTrace isSessionEndPub = 1 := by
  decide

/-- The handler sequence the second-draft processEvent dispatches per
timeline event type: AI_MESSAGE_END also runs the round-start handler,
ROUND_END cascades (through the missing break) into elimination-start,
elimination-end and voting-start, VOTING_END re-runs the AI message handler,
and the ROUND_START, ELIMINATION_START and VOTING_START events dispatch
nothing. -/
def dispatchedHandlers : EventType → List HandlerTag
  | .SESSION_START => [.sessionStart]
  | .AI_MESSAGE_START => [.aiMessageStart]
  | .AI_MESSAGE_END => [.aiMessageEnd, .roundStart]
  | .ROUND_START => []
  | .ROUND_END => [.roundEnd, .eliminationStart, .eliminationEnd,
      .votingStart]
  | .ELIMINATION_START => []
  | .ELIMINATION_END => [.eliminationEnd, .votingStart]
  | .VOTING_START => []
  | .VOTING_END => [.votingEnd, .aiMessageStart]
  | .SESSION_END => [.sessionEnd]

/-- The handler invocations of a trace, in order, with their instants. -/
def invokesOf (tr : Trace) : List (Int × HandlerTag) :=
  tr.filterMap (fun a => match a.2 with
    | .invoke h => some (a.1, h)
    | _ => none)

theorem invokesOf_append (a b : Trace) :
    invokesOf (a ++ b) = invokesOf a ++ invokesOf b := by
  simp [invokesOf, List.filterMap_append]

/-- Vote lists of a store all resolve to continue (share count never
exceeds continue count). -/
def ContinueVotes (st : Store) : Prop :=
  ∀ rid lid, countVotes (st.votes rid lid) "share" ≤
    countVotes (st.votes rid lid) "continue"

/-- Vote lists cast by the users all resolve to continue. -/
def WorldContinue (w : World) : Prop :=
  ∀ rid lid, countVotes (w.votesCast rid lid) "share" ≤
    countVotes (w.votesCast rid lid) "continue"

theorem clearVotes_continueVotes {st : Store} (h : ContinueVotes st)
    (lid : Nat) : ContinueVotes (st.clearVotes lid) := by
  intro rid lid2
  simp only [Store.clearVotes]
  by_cases he : lid2 = lid
  · simp [he, countVotes]
  · simp only [if_neg he]
    exact h rid lid2

theorem delVotes_continueVotes {st : Store} (h : ContinueVotes st)
    (rid0 : Int) (lid0 : Nat) : ContinueVotes (st.delVotes rid0 lid0) := by
  intro rid lid
  simp only [Store.delVotes]
  by_cases he : rid = rid0 ∧ lid = lid0
  · simp [he, countVotes]
  · simp only [if_neg he]
    exact h rid lid

theorem fillVotes_continueVotes {st : Store} {w : World} (r : Round)
    (hst : ContinueVotes st) (hw : WorldContinue w) :
    ContinueVotes (fillVotes w r st) := by
  intro rid lid
  simp only [fillVotes]
  by_cases he : rid = r.id
  · simp only [if_pos he]
    exact hw rid lid
  · simp only [if_neg he]
    exact hst rid lid

theorem elimStartLobbyStep_votes (w : World) (r : Round) (t : Int)
    (st : Store) (l : Lobby) :
    (elimStartLobbyStep w r t st l).1.votes = st.votes := rfl

theorem elimStart_fold_votes (w : World) (r : Round) (t : Int)
    (ls : List Lobby) : ∀ st : Store,
    (foldLobbies (elimStartLobbyStep w r t) st ls).1.votes = st.votes := by
  induction ls with
  | nil => intro st; rfl
  | cons l ls ih =>
    intro st
    simp only [foldLobbies]
    rw [ih]
    exact elimStartLobbyStep_votes w r t st l

theorem gameEndCheckStep_votes (t : Int) (st : Store) (l : Lobby) :
    (gameEndCheckStep t st l).1.votes = st.votes := by
  simp only [gameEndCheckStep]
  by_cases h : (getRemainingPlayersByLobby st l.id).length = 1
  · rw [if_pos h]
    rfl
  · rw [if_neg h]


theorem gameEnd_fold_votes (t : Int) (ls : List Lobby) : ∀ st : Store,
    (foldLobbies (gameEndCheckStep t) st ls).1.votes = st.votes := by
  induction ls with
  | nil => intro st; rfl
  | cons l ls ih =>
    intro st
    simp only [foldLobbies]
    rw [ih, gameEndCheckStep_votes]

theorem votingStart_foldl_continueVotes (r : Round) (ls : List Lobby) :
    ∀ st : Store, ContinueVotes st →
    ContinueVotes (ls.foldl (fun acc l => acc.delVotes r.id l.id) st) := by
  induction ls with
  | nil => intro st h; exact h
  | cons l ls ih =>
    intro st h
    simp only [List.foldl_cons]
    exact ih _ (delVotes_continueVotes h r.id l.id)

/-- Under continue-resolving vote lists, every per-lobby VOTING_END step
takes the continue branch: one voting-result broadcast, no handler
invocation, no session-end publication, lobby records untouched, and the
continue-resolving property is preserved. -/
theorem votingEnd_fold_continue (s : Session) (r : Round) (t : Int)
    (ls : List Lobby) : ∀ st : Store, ContinueVotes st →
    invokesOf (foldLobbies (votingEndLobbyStep s r t) st ls).2 = [] ∧
    countIf (foldLobbies (votingEndLobbyStep s r t) st ls).2
      isSessionEndPub = 0 ∧
    countIf (foldLobbies (votingEndLobbyStep s r t) st ls).2
      isSessionStartPub = 0 ∧
    ContinueVotes (foldLobbies (votingEndLobbyStep s r t) st ls).1 ∧
    (foldLobbies (votingEndLobbyStep s r t) st ls).1.lobbies =
      st.lobbies := by
  induction ls with
  | nil =>
    intro st h
    exact ⟨rfl, rfl, rfl, h, rfl⟩
  | cons l ls ih =>
    intro st h
    have hle : (getVotingResults st r.id l.id).2 ≤
        (getVotingResults st r.id l.id).1 := h r.id l.id
    have hstep : votingEndLobbyStep s r t st l =
        (st.clearVotes l.id,
         [(t, .pubVotingResult l.id "continue")]) := by
      simp only [votingEndLobbyStep, if_pos hle]
    have hV : ContinueVotes (st.clearVotes l.id) :=
      clearVotes_continueVotes h l.id
    obtain ⟨ih1, ih2, ih3, ih4, ih5⟩ := ih (st.clearVotes l.id) hV
    simp only [foldLobbies, hstep]
    refine ⟨?_, ?_, ?_, ih4, ?_⟩
    · rw [invokesOf_append, ih1]
      simp [invokesOf]
    · rw [countIf_append, ih2]
      simp [countIf, isSessionEndPub]
    · rw [countIf_append, ih3]
      simp [countIf, isSessionStartPub]
    · rw [ih5]
      rfl

theorem invokesOf_nil_of_none (tr : Trace)
    (h : ∀ x ∈ tr, ∀ hh : HandlerTag, x.2 ≠ Action.invoke hh) :
    invokesOf tr = [] := by
  induction tr with
  | nil => rfl
  | cons x xs ih =>
    have hx := h x (by simp)
    have hxs := ih (fun y hy hh => h y (by simp [hy]) hh)
    obtain ⟨u, a⟩ := x
    cases a with
    | invoke hh => exact absurd rfl (hx hh)
    | pubSessionStart i => exact hxs
    | pubSessionEnd i => exact hxs
    | pubRoundStart i => exact hxs
    | pubRoundEnd i => exact hxs
    | pubAiMessageStart i => exact hxs
    | pubAiMessageEnd i => exact hxs
    | pubVotingStart i => exact hxs
    | pubLobbyCreated i => exact hxs
    | pubEliminationStart i ps => exact hxs
    | pubEliminationEnd i ps => exact hxs
    | pubVotingResult i rs => exact hxs
    | pubGameEnd i => exact hxs
    | setLobbyStatus i stx => exact hxs
    | setPlayerStatus i wx stx => exact hxs
    | flush => exact hxs

theorem invokesOf_flatMap_dist (t : Int)
    (assignment : List (Nat × List Player)) :
    invokesOf (assignment.flatMap (fun a =>
      a.2.map (fun p =>
        ((t : Int), Action.setPlayerStatus a.1 p.wallet_address .ACTIVE)) ++
      [((t : Int), Action.pubLobbyCreated a.1)])) = [] := by
  apply invokesOf_nil_of_none
  intro x hx hh
  obtain ⟨a, _, hxa⟩ := List.mem_flatMap.mp hx
  rcases List.mem_append.mp hxa with hxm | hxm
  · obtain ⟨p, _, hpe⟩ := List.mem_map.mp hxm
    rw [← hpe]
    simp
  · rw [List.mem_singleton.mp hxm]
    simp

theorem invokesOf_handleSessionStart (w : World) (s : Session) (t : Int)
    (st : Store) :
    invokesOf (handleSessionStart w s t st).2 = [(t, .sessionStart)] := by
  simp only [handleSessionStart]
  split
  · rfl
  · split
    · rw [invokesOf_append, invokesOf_flatMap_dist]
      rfl
    · rw [invokesOf_append, invokesOf_append, invokesOf_flatMap_dist]
      rfl

theorem invokesOf_elimStep (w : World) (r : Round) (t : Int) (st : Store)
    (l : Lobby) : invokesOf (elimStartLobbyStep w r t st l).2 = [] := by
  apply invokesOf_nil_of_none
  intro x hx hh
  simp only [elimStartLobbyStep] at hx
  rcases List.mem_append.mp hx with hxm | hxm
  · obtain ⟨p, _, hpe⟩ := List.mem_map.mp hxm
    rw [← hpe]
    simp
  · rw [List.mem_singleton.mp hxm]
    simp

theorem invokesOf_elimStart_fold (w : World) (r : Round) (t : Int)
    (ls : List Lobby) : ∀ st : Store,
    invokesOf (foldLobbies (elimStartLobbyStep w r t) st ls).2 = [] := by
  induction ls with
  | nil => intro st; rfl
  | cons l ls ih =>
    intro st
    simp only [foldLobbies]
    rw [invokesOf_append, invokesOf_elimStep, ih]
    rfl

theorem invokesOf_handleEliminationStart (w : World) (s : Session)
    (r : Round) (t : Int) (st : Store) :
    invokesOf (handleEliminationStart w s r t st).2 =
      [(t, .eliminationStart)] := by
  simp only [handleEliminationStart]
  have h : ((t : Int), Action.invoke .eliminationStart) ::
      (foldLobbies (elimStartLobbyStep w r t) st (getActiveLobbies st)).2 =
      [((t : Int), Action.invoke .eliminationStart)] ++
      (foldLobbies (elimStartLobbyStep w r t) st (getActiveLobbies st)).2 :=
    rfl
  rw [h, invokesOf_append, invokesOf_elimStart_fold]
  rfl

theorem invokesOf_handleEliminationEnd (r : Round) (t : Int) (st : Store) :
    invokesOf (handleEliminationEnd r t st).2 = [(t, .eliminationEnd)] := by
  simp only [handleEliminationEnd]
  have h : ((t : Int), Action.invoke .eliminationEnd) ::
      (getActiveLobbies st).map (fun l =>
        ((t : Int), Action.pubEliminationEnd l.id
          (l.players.map (fun p => p.wallet_address)))) =
      [((t : Int), Action.invoke .eliminationEnd)] ++
      (getActiveLobbies st).map (fun l =>
        ((t : Int), Action.pubEliminationEnd l.id
          (l.players.map (fun p => p.wallet_address)))) := rfl
  rw [h, invokesOf_append]
  have h2 : invokesOf ((getActiveLobbies st).map (fun l =>
      ((t : Int), Action.pubEliminationEnd l.id
        (l.players.map (fun p => p.wallet_address))))) = [] := by
    apply invokesOf_nil_of_none
    intro x hx hh
    obtain ⟨l, _, hle⟩ := List.mem_map.mp hx
    rw [← hle]
    simp
  rw [h2]
  rfl

theorem invokesOf_gameEndStep (t : Int) (st : Store) (l : Lobby) :
    invokesOf (gameEndCheckStep t st l).2 = [] := by
  simp only [gameEndCheckStep]
  by_cases h : (getRemainingPlayersByLobby st l.id).length = 1
  · rw [if_pos h]
    rfl
  · rw [if_neg h]
    rfl

theorem invokesOf_gameEnd_fold (t : Int) (ls : List Lobby) :
    ∀ st : Store,
    invokesOf (foldLobbies (gameEndCheckStep t) st ls).2 = [] := by
  induction ls with
  | nil => intro st; rfl
  | cons l ls ih =>
    intro st
    simp only [foldLobbies]
    rw [invokesOf_append, invokesOf_gameEndStep, ih]
    rfl

theorem invokesOf_eliminationEndCase (r : Round) (t : Int) (st : Store) :
    invokesOf (eliminationEndCase r t st).2 =
      [(t, .eliminationEnd), (t, .votingStart)] := by
  simp only [eliminationEndCase, gameEndChecks]
  rw [invokesOf_append, invokesOf_append,
    invokesOf_handleEliminationEnd, invokesOf_gameEnd_fold]
  rfl

/-- C2 (amended).  The handlers the worker dispatches for a timeline event
all run at that event's dispatch instant, in this per-event order:
SESSION_START runs the session-start handler; AI_MESSAGE_START the AI
message handler; AI_MESSAGE_END the AI-message-end handler and then the
round-start handler; ROUND_END runs round-end, elimination-start,
elimination-end and voting-start (the switch case has no break and falls
into the ELIMINATION_END body); ELIMINATION_END runs elimination-end and
voting-start; VOTING_END runs voting-end and then the AI message handler
again; SESSION_END runs session-end; the ROUND_START, ELIMINATION_START and
VOTING_START events dispatch no handler at all.  In particular elimination
work runs at the ROUND_END instant, not deferred to ELIMINATION_START.
(Stated for vote lists resolving to continue, where the voting handler does
not additionally invoke the session-end handler.) -/
theorem processEvent_dispatch (w : World) (s : Session) (e : Event)
    (t : Int) (st : Store) (hw : WorldContinue w) (hst : ContinueVotes st)
    (hround : e.round.isSome = true ∨ e.type = .SESSION_START ∨
      e.type = .SESSION_END) :
    invokesOf (processEvent w s e t st).2 =
      (dispatchedHandlers e.type).map (fun h => (t, h)) := by
  obtain ⟨ty, ti, ro⟩ := e
  cases ty with
  | SESSION_START =>
    simpa [processEvent, dispatchedHandlers] using
      invokesOf_handleSessionStart w s t st
  | SESSION_END =>
    cases ro <;> rfl
  | AI_MESSAGE_START =>
    cases ro with
    | none => simp at hround
    | some r => rfl
  | AI_MESSAGE_END =>
    cases ro with
    | none => simp at hround
    | some r => rfl
  | ROUND_START =>
    cases ro with
    | none => simp at hround
    | some r => rfl
  | ROUND_END =>
    cases ro with
    | none => simp at hround
    | some r =>
      simp only [processEvent, handleRoundEnd]
      rw [invokesOf_append, invokesOf_append]
      rw [invokesOf_handleEliminationStart, invokesOf_eliminationEndCase]
      rfl
  | ELIMINATION_START =>
    cases ro with
    | none => simp at hround
    | some r => rfl
  | ELIMINATION_END =>
    cases ro with
    | none => simp at hround
    | some r =>
      simp only [processEvent]
      rw [invokesOf_eliminationEndCase]
      rfl
  | VOTING_START =>
    cases ro with
    | none => simp at hround
    | some r => rfl
  | VOTING_END =>
    cases ro with
    | none => simp at hround
    | some r =>
      simp only [processEvent, handleVotingEnd]
      have hV : ContinueVotes (fillVotes w r st) :=
        fillVotes_continueVotes r hst hw
      obtain ⟨hf, _, _, _, _⟩ := votingEnd_fold_continue s r t
        (getActiveLobbies (fillVotes w r st)) (fillVotes w r st) hV
      rw [invokesOf_append]
      have hc : ((t : Int), Action.invoke .votingEnd) ::
          (foldLobbies (votingEndLobbyStep s r t) (fillVotes w r st)
            (getActiveLobbies (fillVotes w r st))).2 =
          [((t : Int), Action.invoke .votingEnd)] ++
          (foldLobbies (votingEndLobbyStep s r t) (fillVotes w r st)
            (getActiveLobbies (fillVotes w r st))).2 := rfl
      rw [hc, invokesOf_append, hf]
      rfl

theorem processEvent_dispatch_witness :
    invokesOf (processEvent exElimWorld exSession
      { type := .ROUND_END, time := 4, round := some exRound1 } 4
      Store.empty).2 =
      [(4, .roundEnd), (4, .eliminationStart), (4, .eliminationEnd),
       (4, .votingStart)] := by
  have h := processEvent_dispatch exElimWorld exSession
    { type := .ROUND_END, time := 4, round := some exRound1 } 4 Store.empty
    (by intro rid lid; exact Nat.le_refl 0)
    (by intro rid lid; exact Nat.le_refl 0)
    (by simp)
  rw [h]
  rfl

/-- No elimination-start broadcast of the trace carries wallet W. -/
def noElimPubWith (W : String) (tr : Trace) : Prop :=
  ∀ x ∈ tr, ∀ lid ps, x.2 = Action.pubEliminationStart lid ps → W ∉ ps

theorem noElimPubWith_append {W : String} {a b : Trace}
    (ha : noElimPubWith W a) (hb : noElimPubWith W b) :
    noElimPubWith W (a ++ b) := by
  intro x hx
  rcases List.mem_append.mp hx with h | h
  · exact ha x h
  · exact hb x h

theorem noElimPubWith_nil {W : String} : noElimPubWith W [] := by
  intro x hx
  simp at hx

theorem noElimPubWith_cons {W : String} {x : Int × Action} {tr : Trace}
    (hx : ∀ lid ps, x.2 ≠ Action.pubEliminationStart lid ps)
    (h : noElimPubWith W tr) : noElimPubWith W (x :: tr) := by
  intro y hy lid ps hps
  rcases List.mem_cons.mp hy with h2 | h2
  · rw [h2] at hps
    exact absurd hps (hx lid ps)
  · exact h y h2 lid ps hps

theorem noElim_handleSessionStart (W : String) (w : World) (s : Session)
    (t : Int) (st : Store) :
    noElimPubWith W (handleSessionStart w s t st).2 := by
  intro x hx lid ps hps
  simp only [handleSessionStart] at hx
  split at hx
  · rcases List.mem_cons.mp hx with h | h
    · rw [h] at hps
      simp at hps
    · rw [List.mem_singleton.mp h] at hps
      simp at hps
  · have hflat : ∀ y ∈ (distributePlayersToLobbies
        (w.shuffle ((s.players.map (fun p => p.wallet_address)).map
          (cachedPlayer s.id))) s.max_total_players).flatMap (fun a =>
        a.2.map (fun p => ((t : Int),
          Action.setPlayerStatus a.1 p.wallet_address .ACTIVE)) ++
        [((t : Int), Action.pubLobbyCreated a.1)]),
        ∀ lid2 ps2, (y : Int × Action).2 ≠
          Action.pubEliminationStart lid2 ps2 := by
      intro y hy lid2 ps2
      obtain ⟨a, _, hya⟩ := List.mem_flatMap.mp hy
      rcases List.mem_append.mp hya with hm | hm
      · obtain ⟨p, _, hpe⟩ := List.mem_map.mp hm
        rw [← hpe]
        simp
      · rw [List.mem_singleton.mp hm]
        simp
    split at hx
    · rcases List.mem_append.mp hx with h | h
      · rcases List.mem_cons.mp h with h2 | h2
        · rw [h2] at hps
          simp at hps
        · rw [List.mem_singleton.mp h2] at hps
          simp at hps
      · exact absurd hps (hflat x h lid ps)
    · rcases List.mem_append.mp hx with h | h
      · rcases List.mem_append.mp h with h2 | h2
        · rcases List.mem_cons.mp h2 with h3 | h3
          · rw [h3] at hps
            simp at hps
          · rw [List.mem_singleton.mp h3] at hps
            simp at hps
        · exact absurd hps (hflat x h2 lid ps)
      · rw [List.mem_singleton.mp h] at hps
        simp at hps

theorem noElim_elimStep (W : String) (w : World) (r : Round) (t : Int)
    (st : Store) (l : Lobby)
    (hW : ∀ rn lid, W ∉ (w.aiElim rn lid).getD []) :
    noElimPubWith W (elimStartLobbyStep w r t st l).2 := by
  intro x hx lid ps hps
  simp only [elimStartLobbyStep] at hx
  rcases List.mem_append.mp hx with hm | hm
  · obtain ⟨p, _, hpe⟩ := List.mem_map.mp hm
    rw [← hpe] at hps
    simp at hps
  · rw [List.mem_singleton.mp hm] at hps
    simp only [Action.pubEliminationStart.injEq] at hps
    rw [← hps.2]
    exact hW r.round_number l.id

theorem noElim_elimStart_fold (W : String) (w : World) (r : Round)
    (t : Int) (ls : List Lobby)
    (hW : ∀ rn lid, W ∉ (w.aiElim rn lid).getD []) : ∀ st : Store,
    noElimPubWith W (foldLobbies (elimStartLobbyStep w r t) st ls).2 := by
  induction ls with
  | nil => intro st; exact noElimPubWith_nil
  | cons l ls ih =>
    intro st
    exact noElimPubWith_append (noElim_elimStep W w r t st l hW) (ih _)

theorem noElim_handleSessionEnd (W : String) (s : Session) (t : Int)
    (st : Store) : noElimPubWith W (handleSessionEnd s t st).2 := by
  intro x hx lid ps hps
  rcases List.mem_cons.mp hx with h | h
  · rw [h] at hps
    simp at hps
  rcases List.mem_cons.mp h with h2 | h2
  · rw [h2] at hps
    simp at hps
  · rw [List.mem_singleton.mp h2] at hps
    simp at hps

theorem noElim_votingEndStep (W : String) (s : Session) (r : Round)
    (t : Int) (st : Store) (l : Lobby) :
    noElimPubWith W (votingEndLobbyStep s r t st l).2 := by
  intro x hx lid ps hps
  simp only [votingEndLobbyStep] at hx
  split at hx
  · rw [List.mem_singleton.mp hx] at hps
    simp at hps
  · rcases List.mem_cons.mp hx with h | h
    · rw [h] at hps
      simp at hps
    rcases List.mem_cons.mp h with h2 | h2
    · rw [h2] at hps
      simp at hps
    · exact noElim_handleSessionEnd W s t
        (st.updateLobbyStatus l.id .COMPLETED) x h2 lid ps hps

theorem noElim_votingEnd_fold (W : String) (s : Session) (r : Round)
    (t : Int) (ls : List Lobby) : ∀ st : Store,
    noElimPubWith W (foldLobbies (votingEndLobbyStep s r t) st ls).2 := by
  induction ls with
  | nil => intro st; exact noElimPubWith_nil
  | cons l ls ih =>
    intro st
    exact noElimPubWith_append (noElim_votingEndStep W s r t st l) (ih _)

theorem noElim_gameEndStep (W : String) (t : Int) (st : Store) (l : Lobby) :
    noElimPubWith W (gameEndCheckStep t st l).2 := by
  intro x hx lid ps hps
  simp only [gameEndCheckStep] at hx
  split at hx
  · rcases List.mem_cons.mp hx with h | h
    · rw [h] at hps
      simp at hps
    · rw [List.mem_singleton.mp h] at hps
      simp at hps
  · simp at hx

theorem noElim_gameEnd_fold (W : String) (t : Int) (ls : List Lobby) :
    ∀ st : Store,
    noElimPubWith W (foldLobbies (gameEndCheckStep t) st ls).2 := by
  induction ls with
  | nil => intro st; exact noElimPubWith_nil
  | cons l ls ih =>
    intro st
    exact noElimPubWith_append (noElim_gameEndStep W t st l) (ih _)

theorem noElim_handleEliminationEnd (W : String) (r : Round) (t : Int)
    (st : Store) : noElimPubWith W (handleEliminationEnd r t st).2 := by
  intro x hx lid ps hps
  rcases List.mem_cons.mp hx with h | h
  · rw [h] at hps
    simp at hps
  · obtain ⟨l, _, hle⟩ := List.mem_map.mp h
    rw [← hle] at hps
    simp at hps

theorem noElim_handleVotingStart (W : String) (r : Round) (t : Int)
    (st : Store) : noElimPubWith W (handleVotingStart r t st).2 := by
  intro x hx lid ps hps
  rcases List.mem_cons.mp hx with h | h
  · rw [h] at hps
    simp at hps
  · rw [List.mem_singleton.mp h] at hps
    simp at hps

theorem noElim_twoLit (W : String) (u : Int) (a b : Action)
    (ha : ∀ lid ps, a ≠ Action.pubEliminationStart lid ps)
    (hb : ∀ lid ps, b ≠ Action.pubEliminationStart lid ps) :
    noElimPubWith W [(u, a), (u, b)] := by
  intro x hx lid ps hps
  rcases List.mem_cons.mp hx with h | h
  · rw [h] at hps
    exact absurd hps (ha lid ps)
  · rw [List.mem_singleton.mp h] at hps
    exact absurd hps (hb lid ps)

theorem noElim_eliminationEndCase (W : String) (r : Round) (t : Int)
    (st : Store) : noElimPubWith W (eliminationEndCase r t st).2 := by
  simp only [eliminationEndCase, gameEndChecks]
  exact noElimPubWith_append
    (noElimPubWith_append (noElim_handleEliminationEnd W r t st)
      (noElim_gameEnd_fold W t _ _))
    (noElim_handleVotingStart W r t _)

theorem noElim_processEvent (W : String) (w : World) (s : Session)
    (e : Event) (t : Int) (st : Store)
    (hW : ∀ rn lid, W ∉ (w.aiElim rn lid).getD []) :
    noElimPubWith W (processEvent w s e t st).2 := by
  obtain ⟨ty, ti, ro⟩ := e
  cases ty with
  | SESSION_START => exact noElim_handleSessionStart W w s t st
  | SESSION_END =>
    cases ro <;> exact noElim_handleSessionEnd W s t st
  | AI_MESSAGE_START =>
    cases ro with
    | none => exact noElimPubWith_nil
    | some r =>
      exact noElim_twoLit W t _ _ (by simp) (by simp)
  | AI_MESSAGE_END =>
    cases ro with
    | none => exact noElimPubWith_nil
    | some r =>
      exact noElimPubWith_append
        (noElim_twoLit W t _ _ (by simp) (by simp))
        (noElim_twoLit W t _ _ (by simp) (by simp))
  | ROUND_START =>
    cases ro <;> exact noElimPubWith_nil
  | ROUND_END =>
    cases ro with
    | none => exact noElimPubWith_nil
    | some r =>
      refine noElimPubWith_append (noElimPubWith_append
        (noElim_twoLit W t _ _ (by simp) (by simp)) ?_) ?_
      · simp only [handleEliminationStart]
        exact noElimPubWith_cons (by simp)
          (noElim_elimStart_fold W w r t _ hW _)
      · exact noElim_eliminationEndCase W r t _
  | ELIMINATION_START =>
    cases ro <;> exact noElimPubWith_nil
  | ELIMINATION_END =>
    cases ro with
    | none => exact noElimPubWith_nil
    | some r => exact noElim_eliminationEndCase W r t st
  | VOTING_START =>
    cases ro <;> exact noElimPubWith_nil
  | VOTING_END =>
    cases ro with
    | none => exact noElimPubWith_nil
    | some r =>
      refine noElimPubWith_append ?_
        (noElim_twoLit W t _ _ (by simp) (by simp))
      simp only [handleVotingEnd]
      exact noElimPubWith_cons (by simp) (noElim_votingEnd_fold W s r t _ _)

/-- C8 (amended).  A wallet appears in an elimination-start broadcast only
when the AI response for that round and lobby lists it: the worker
republishes the AI's list verbatim and applies no filtering of
already-eliminated wallets.  Consequently, if the AI never returns W (in
particular, never returns an already-eliminated wallet a second time), W
never appears in any elimination-start payload of the whole monitoring run;
but for AI response sequences that do repeat a wallet, the wallet reappears
even though its status is already ELIMINATED. -/
theorem eliminationStart_pubs_only_from_ai (w : World) (s : Session)
    (W : String) (fuel : Nat) (now : Int) (st : Store)
    (hW : ∀ rn lid, W ∉ (w.aiElim rn lid).getD []) :
    noElimPubWith W (runMonitor w s fuel now st).2 := by
  induction fuel generalizing now st with
  | zero => exact noElimPubWith_nil
  | succ n ih =>
    simp only [runMonitor]
    cases hne : getNextEvent s now with
    | none => exact noElimPubWith_nil
    | some e =>
      simp only []
      split
      · exact noElim_processEvent W w s e (max now e.time) st hW
      · exact noElimPubWith_append
          (noElim_processEvent W w s e (max now e.time) st hW) (ih _ _)

theorem eliminationStart_pubs_only_from_ai_witness :
    noElimPubWith "Z" (runMonitor exElimWorld exSession 19 (-1)
      Store.empty).2 := by
  apply eliminationStart_pubs_only_from_ai
  intro rn lid
  simp [exElimWorld]

theorem countIf_eq_zero {tr : Trace} {p : Action → Bool}
    (h : ∀ x ∈ tr, p x.2 = false) : countIf tr p = 0 := by
  induction tr with
  | nil => rfl
  | cons x xs ih =>
    have hx := h x (List.mem_cons_self x xs)
    have hxs := ih (fun y hy => h y (List.mem_cons_of_mem x hy))
    simp only [countIf, List.filter_cons, hx] at hxs ⊢
    simp only [Bool.false_eq_true, if_false]
    exact hxs

theorem getNextEvent_time_lt {s : Session} {now : Int} {e : Event}
    (h : getNextEvent s now = some e) :
    e ∈ sessionEvents s now ∧ now < e.time := by
  have hnow : ¬ s.end_time ≤ now := by
    by_contra hle
    rw [getNextEvent, if_pos hle] at h
    exact Option.noConfusion h
  rw [getNextEvent, if_neg hnow] at h
  have hmem := firstMinByTime_mem h
  rw [List.mem_filter] at hmem
  exact ⟨hmem.1, by simpa using hmem.2⟩

/-- The SESSION_START event record. -/
def ssEvent (s : Session) : Event :=
  { type := .SESSION_START, time := s.start_time, round := none }

/-- The SESSION_END event record. -/
def seEvent (s : Session) : Event :=
  { type := .SESSION_END, time := s.end_time, round := none }

/-- The part of the event list that does not depend on `now`: SESSION_END
followed by the round events. -/
def restEvents (s : Session) : List Event :=
  seEvent s :: s.rounds.flatMap roundEvents

theorem sessionEvents_eq (s : Session) (now : Int) :
    sessionEvents s now =
      (if now < s.start_time then [ssEvent s] else []) ++ restEvents s := by
  simp [sessionEvents, ssEvent, restEvents, seEvent]

theorem mem_restEvents_of_ne_ss {s : Session} {now : Int} {e : Event}
    (hmem : e ∈ sessionEvents s now) (ht : e.type ≠ .SESSION_START) :
    e ∈ restEvents s := by
  rw [sessionEvents_eq] at hmem
  rcases List.mem_append.mp hmem with h | h
  · split at h
    · rw [List.mem_singleton.mp h] at ht
      simp [ssEvent] at ht
    · simp at h
  · exact h

theorem restEvents_time_lb {s : Session}
    (hr : ∀ r ∈ s.rounds, s.start_time ≤ r.ai_message_start ∧
      s.start_time ≤ r.ai_message_end ∧ s.start_time ≤ r.start_time ∧
      s.start_time ≤ r.end_time ∧ s.start_time ≤ r.elimination_start ∧
      s.start_time ≤ r.elimination_end ∧
      s.start_time ≤ r.voting_start_time ∧
      s.start_time ≤ r.voting_end_time)
    (hse : s.start_time ≤ s.end_time) :
    ∀ x ∈ restEvents s, s.start_time ≤ x.time := by
  intro x hx
  rcases List.mem_cons.mp hx with h | h
  · rw [h]
    exact hse
  · obtain ⟨r, hrm, hre⟩ := List.mem_flatMap.mp h
    obtain ⟨h1, h2, h3, h4, h5, h6, h7, h8⟩ := hr r hrm
    simp only [roundEvents, List.mem_cons, List.mem_singleton,
      List.not_mem_nil, or_false] at hre
    rcases hre with h | h | h | h | h | h | h | h
    all_goals rw [h]
    · exact h1
    · exact h2
    · exact h3
    · exact h4
    · exact h5
    · exact h6
    · exact h7
    · exact h8

theorem length_filter_mono {α : Type} (l : List α) (p q : α → Bool)
    (h : ∀ a ∈ l, p a = true → q a = true) :
    (l.filter p).length ≤ (l.filter q).length := by
  induction l with
  | nil => simp
  | cons x xs ih =>
    have hxs := ih (fun a ha hp => h a (List.mem_cons_of_mem x ha) hp)
    cases hp : p x with
    | true =>
      have hq := h x (List.mem_cons_self x xs) hp
      simp [List.filter_cons, hp, hq]
      omega
    | false =>
      cases hq : q x with
      | true =>
        simp [List.filter_cons, hp, hq]
        omega
      | false =>
        simp [List.filter_cons, hp, hq]
        exact hxs

theorem length_filter_lt {α : Type} (l : List α) (p q : α → Bool) (a : α)
    (ha : a ∈ l) (hpa : p a = false) (hqa : q a = true)
    (h : ∀ b ∈ l, p b = true → q b = true) :
    (l.filter p).length < (l.filter q).length := by
  induction l with
  | nil => simp at ha
  | cons x xs ih =>
    have hmono : (xs.filter p).length ≤ (xs.filter q).length :=
      length_filter_mono xs p q
        (fun b hb hp => h b (List.mem_cons_of_mem x hb) hp)
    rcases List.mem_cons.mp ha with rfl | hmem
    · simp [List.filter_cons, hpa, hqa]
      omega
    · have hlt := ih hmem
        (fun b hb hp => h b (List.mem_cons_of_mem x hb) hp)
      cases hp : p x with
      | true =>
        have hq := h x (List.mem_cons_self x xs) hp
        simp [List.filter_cons, hp, hq]
        omega
      | false =>
        cases hq : q x with
        | true =>
          simp [List.filter_cons, hp, hq]
          omega
        | false =>
          simp [List.filter_cons, hp, hq]
          exact hlt

theorem futureCount_decreases {s : Session} {now : Int} {e : Event}
    (h : getNextEvent s now = some e) :
    futureCount s e.time < futureCount s now := by
  obtain ⟨hmem, hlt⟩ := getNextEvent_time_lt h
  have hsplit : ∀ u : Int, futureCount s u =
      ((if u < s.start_time then [ssEvent s] else []).filter
        (fun x => u < x.time)).length +
      ((restEvents s).filter (fun x => u < x.time)).length := by
    intro u
    rw [futureCount, sessionEvents_eq, List.filter_append,
      List.length_append]
  rw [hsplit, hsplit]
  by_cases hty : e.type = .SESSION_START
  · have hss : e = ssEvent s ∧ now < s.start_time := by
      constructor
      · by_contra hne
        have hrest := mem_restEvents_of_ne_ss hmem ?_
        · rcases List.mem_cons.mp hrest with h2 | h2
          · rw [h2] at hty
            simp [seEvent] at hty
          · obtain ⟨r, _, hre⟩ := List.mem_flatMap.mp h2
            simp only [roundEvents, List.mem_cons, List.mem_singleton,
              List.not_mem_nil, or_false] at hre
            rcases hre with h3 | h3 | h3 | h3 | h3 | h3 | h3 | h3 <;>
              (rw [h3] at hty; simp at hty)
        · intro heq
          rw [sessionEvents_eq] at hmem
          rcases List.mem_append.mp hmem with h2 | h2
          · split at h2
            · exact hne (List.mem_singleton.mp h2)
            · simp at h2
          · rcases List.mem_cons.mp h2 with h3 | h3
            · rw [h3] at hty
              simp [seEvent] at hty
            · obtain ⟨r, _, hre⟩ := List.mem_flatMap.mp h3
              simp only [roundEvents, List.mem_cons, List.mem_singleton,
                List.not_mem_nil, or_false] at hre
              rcases hre with h4 | h4 | h4 | h4 | h4 | h4 | h4 | h4 <;>
                (rw [h4] at hty; simp at hty)
      · exact sessionStart_only_before_start hmem hty
    obtain ⟨heq, hns⟩ := hss
    have hetime : e.time = s.start_time := by rw [heq]; rfl
    rw [if_pos hns, if_neg (by rw [hetime]; exact lt_irrefl _)]
    have hkeep : (([ssEvent s] : List Event).filter
        (fun x => now < x.time)).length = 1 := by
      simp only [List.filter_cons, List.filter_nil]
      rw [if_pos (by simpa [ssEvent] using hns)]
      rfl
    rw [hkeep]
    simp only [List.filter_nil, List.length_nil, Nat.zero_add]
    have hmono : ((restEvents s).filter
        (fun x => e.time < x.time)).length ≤
        ((restEvents s).filter (fun x => now < x.time)).length := by
      apply length_filter_mono
      intro a _ hp
      simp only [decide_eq_true_eq] at hp ⊢
      omega
    omega
  · have hrest : e ∈ restEvents s := mem_restEvents_of_ne_ss hmem hty
    have hstrict : ((restEvents s).filter
        (fun x => e.time < x.time)).length <
        ((restEvents s).filter (fun x => now < x.time)).length := by
      apply length_filter_lt (restEvents s) _ _ e hrest
      · simp
      · simpa using hlt
      · intro b _ hp
        simp only [decide_eq_true_eq] at hp ⊢
        omega
    have hss : ((if e.time < s.start_time then [ssEvent s] else []).filter
        (fun x => e.time < x.time)).length ≤
        ((if now < s.start_time then [ssEvent s] else []).filter
          (fun x => now < x.time)).length := by
      by_cases h1 : e.time < s.start_time
      · rw [if_pos h1, if_pos (by omega)]
        apply length_filter_mono
        intro a _ hp
        simp only [decide_eq_true_eq] at hp ⊢
        omega
      · rw [if_neg h1]
        simp
    omega

theorem getNextEvent_isSome {s : Session} {now : Int}
    (h : now < s.end_time) : ∃ e, getNextEvent s now = some e := by
  rw [getNextEvent, if_neg (not_le.mpr h)]
  cases hf : firstMinByTime ((sessionEvents s now).filter
      (fun e => now < e.time)) with
  | some e => exact ⟨e, rfl⟩
  | none =>
    exfalso
    have hnil := firstMinByTime_eq_none.mp hf
    have hmem : seEvent s ∈ (sessionEvents s now).filter
        (fun e => now < e.time) := by
      rw [List.mem_filter]
      constructor
      · rw [sessionEvents_eq]
        exact List.mem_append.mpr (Or.inr (List.mem_cons_self _ _))
      · simpa [seEvent] using h
    rw [hnil] at hmem
    simp at hmem

theorem first_event_is_sessionStart {s : Session} {now : Int}
    (h0 : now < s.start_time) (hse : s.start_time < s.end_time)
    (hr : ∀ r ∈ s.rounds, s.start_time ≤ r.ai_message_start ∧
      s.start_time ≤ r.ai_message_end ∧ s.start_time ≤ r.start_time ∧
      s.start_time ≤ r.end_time ∧ s.start_time ≤ r.elimination_start ∧
      s.start_time ≤ r.elimination_end ∧
      s.start_time ≤ r.voting_start_time ∧
      s.start_time ≤ r.voting_end_time) :
    getNextEvent s now = some (ssEvent s) := by
  have hne : ¬ s.end_time ≤ now := by omega
  rw [getNextEvent, if_neg hne, sessionEvents_eq, if_pos h0]
  have hfss : (([ssEvent s] ++ restEvents s).filter
      (fun e => now < e.time)) =
      ssEvent s :: ((restEvents s).filter (fun e => now < e.time)) := by
    rw [List.filter_append]
    simp only [List.filter_cons, List.filter_nil]
    rw [if_pos (by simpa [ssEvent] using h0)]
    rfl
  rw [hfss]
  cases hf : firstMinByTime ((restEvents s).filter
      (fun e => now < e.time)) with
  | none =>
    show (match firstMinByTime ((restEvents s).filter
        (fun e => now < e.time)) with
      | none => some (ssEvent s)
      | some m => if (ssEvent s).time ≤ m.time then some (ssEvent s)
          else some m) = some (ssEvent s)
    rw [hf]
  | some m =>
    have hm := firstMinByTime_mem hf
    rw [List.mem_filter] at hm
    have hmt : s.start_time ≤ m.time :=
      restEvents_time_lb hr (le_of_lt hse) m hm.1
    show (match firstMinByTime ((restEvents s).filter
        (fun e => now < e.time)) with
      | none => some (ssEvent s)
      | some m => if (ssEvent s).time ≤ m.time then some (ssEvent s)
          else some m) = some (ssEvent s)
    rw [hf]
    show (if (ssEvent s).time ≤ m.time then some (ssEvent s) else some m) =
      some (ssEvent s)
    rw [if_pos (by simpa [ssEvent] using hmt)]

theorem nextEvent_time_lt_end {s : Session} {now : Int} {e : Event}
    (hge : s.start_time ≤ now) (hlt : now < s.end_time)
    (h : getNextEvent s now = some e) (hty : e.type ≠ .SESSION_END) :
    e.time < s.end_time := by
  rw [getNextEvent, if_neg (not_le.mpr hlt), sessionEvents_eq,
    if_neg (not_lt.mpr hge), List.nil_append] at h
  have hfse : (restEvents s).filter (fun x => now < x.time) =
      seEvent s :: ((s.rounds.flatMap roundEvents).filter
        (fun x => now < x.time)) := by
    simp only [restEvents, List.filter_cons]
    rw [if_pos (by simpa [seEvent] using hlt)]
  rw [hfse] at h
  have h2 : (match firstMinByTime
      ((s.rounds.flatMap roundEvents).filter (fun x => now < x.time)) with
    | none => some (seEvent s)
    | some m => if (seEvent s).time ≤ m.time then some (seEvent s)
        else some m) = some e := h
  cases hf : firstMinByTime ((s.rounds.flatMap roundEvents).filter
      (fun x => now < x.time)) with
  | none =>
    rw [hf] at h2
    simp at h2
    rw [← h2] at hty
    simp [seEvent] at hty
  | some m =>
    rw [hf] at h2
    simp only [] at h2
    by_cases hle : (seEvent s).time ≤ m.time
    · rw [if_pos hle] at h2
      simp at h2
      rw [← h2] at hty
      simp [seEvent] at hty
    · rw [if_neg hle] at h2
      simp at h2
      rw [← h2]
      simp only [seEvent] at hle
      omega

theorem countIf_two {u : Int} {a b : Action} {p : Action → Bool}
    (ha : p a = false) (hb : p b = false) :
    countIf [(u, a), (u, b)] p = 0 := by
  simp [countIf, ha, hb]

theorem continueVotes_of_votes_eq {st st₂ : Store}
    (h : st₂.votes = st.votes) (hst : ContinueVotes st) :
    ContinueVotes st₂ := by
  intro rid lid
  rw [h]
  exact hst rid lid

theorem sessionPubs_elimStep (w : World) (r : Round) (t : Int) (st : Store)
    (l : Lobby) :
    countIf (elimStartLobbyStep w r t st l).2 isSessionStartPub = 0 ∧
    countIf (elimStartLobbyStep w r t st l).2 isSessionEndPub = 0 := by
  constructor <;>
  · apply countIf_eq_zero
    intro x hx
    simp only [elimStartLobbyStep] at hx
    rcases List.mem_append.mp hx with hm | hm
    · obtain ⟨p, _, hpe⟩ := List.mem_map.mp hm
      rw [← hpe]
      rfl
    · rw [List.mem_singleton.mp hm]
      rfl

theorem sessionPubs_elimStart_fold (w : World) (r : Round) (t : Int)
    (ls : List Lobby) : ∀ st : Store,
    countIf (foldLobbies (elimStartLobbyStep w r t) st ls).2
      isSessionStartPub = 0 ∧
    countIf (foldLobbies (elimStartLobbyStep w r t) st ls).2
      isSessionEndPub = 0 := by
  induction ls with
  | nil => intro st; exact ⟨rfl, rfl⟩
  | cons l ls ih =>
    intro st
    obtain ⟨ih1, ih2⟩ := ih (elimStartLobbyStep w r t st l).1
    obtain ⟨h1, h2⟩ := sessionPubs_elimStep w r t st l
    simp only [foldLobbies]
    rw [countIf_append, countIf_append, h1, h2, ih1, ih2]
    exact ⟨rfl, rfl⟩

theorem sessionPubs_elimEnd (r : Round) (t : Int) (st : Store) :
    countIf (handleEliminationEnd r t st).2 isSessionStartPub = 0 ∧
    countIf (handleEliminationEnd r t st).2 isSessionEndPub = 0 := by
  constructor <;>
  · apply countIf_eq_zero
    intro x hx
    simp only [handleEliminationEnd] at hx
    rcases List.mem_cons.mp hx with hm | hm
    · rw [hm]
      rfl
    · obtain ⟨l, _, hle⟩ := List.mem_map.mp hm
      rw [← hle]
      rfl

theorem sessionPubs_gameEndStep (t : Int) (st : Store) (l : Lobby) :
    countIf (gameEndCheckStep t st l).2 isSessionStartPub = 0 ∧
    countIf (gameEndCheckStep t st l).2 isSessionEndPub = 0 := by
  constructor <;>
  · apply countIf_eq_zero
    intro x hx
    simp only [gameEndCheckStep] at hx
    split at hx
    · rcases List.mem_cons.mp hx with hm | hm
      · rw [hm]
        rfl
      · rw [List.mem_singleton.mp hm]
        rfl
    · simp at hx

theorem sessionPubs_gameEnd_fold (t : Int) (ls : List Lobby) :
    ∀ st : Store,
    countIf (foldLobbies (gameEndCheckStep t) st ls).2
      isSessionStartPub = 0 ∧
    countIf (foldLobbies (gameEndCheckStep t) st ls).2
      isSessionEndPub = 0 := by
  induction ls with
  | nil => intro st; exact ⟨rfl, rfl⟩
  | cons l ls ih =>
    intro st
    obtain ⟨ih1, ih2⟩ := ih (gameEndCheckStep t st l).1
    obtain ⟨h1, h2⟩ := sessionPubs_gameEndStep t st l
    simp only [foldLobbies]
    rw [countIf_append, countIf_append, h1, h2, ih1, ih2]
    exact ⟨rfl, rfl⟩

theorem sessionPubs_aiMessageStart (w : World) (r : Round) (t : Int)
    (st : Store) :
    countIf (handleAiMessageStart w r t st).2 isSessionStartPub = 0 ∧
    countIf (handleAiMessageStart w r t st).2 isSessionEndPub = 0 :=
  ⟨countIf_two rfl rfl, countIf_two rfl rfl⟩

theorem sessionPubs_aiMessageEnd (r : Round) (t : Int) (st : Store) :
    countIf (handleAiMessageEnd r t st).2 isSessionStartPub = 0 ∧
    countIf (handleAiMessageEnd r t st).2 isSessionEndPub = 0 :=
  ⟨countIf_two rfl rfl, countIf_two rfl rfl⟩

theorem sessionPubs_roundStart (r : Round) (t : Int) (st : Store) :
    countIf (handleRoundStart r t st).2 isSessionStartPub = 0 ∧
    countIf (handleRoundStart r t st).2 isSessionEndPub = 0 :=
  ⟨countIf_two rfl rfl, countIf_two rfl rfl⟩

theorem sessionPubs_roundEnd (r : Round) (t : Int) (st : Store) :
    countIf (handleRoundEnd r t st).2 isSessionStartPub = 0 ∧
    countIf (handleRoundEnd r t st).2 isSessionEndPub = 0 :=
  ⟨countIf_two rfl rfl, countIf_two rfl rfl⟩

theorem sessionPubs_votingStart (r : Round) (t : Int) (st : Store) :
    countIf (handleVotingStart r t st).2 isSessionStartPub = 0 ∧
    countIf (handleVotingStart r t st).2 isSessionEndPub = 0 :=
  ⟨countIf_two rfl rfl, countIf_two rfl rfl⟩

theorem sessionPubs_eliminationEndCase (r : Round) (t : Int) (st : Store)
    (hst : ContinueVotes st) :
    countIf (eliminationEndCase r t st).2 isSessionStartPub = 0 ∧
    countIf (eliminationEndCase r t st).2 isSessionEndPub = 0 ∧
    ContinueVotes (eliminationEndCase r t st).1 := by
  simp only [eliminationEndCase, gameEndChecks]
  obtain ⟨h1, h2⟩ := sessionPubs_elimEnd r t st
  obtain ⟨h3, h4⟩ := sessionPubs_gameEnd_fold t
    (getActiveLobbies (handleEliminationEnd r t st).1)
    (handleEliminationEnd r t st).1
  have hV1 : ContinueVotes (handleEliminationEnd r t st).1 := hst
  have hV2 : ContinueVotes (foldLobbies (gameEndCheckStep t)
      (handleEliminationEnd r t st).1
      (getActiveLobbies (handleEliminationEnd r t st).1)).1 :=
    continueVotes_of_votes_eq (gameEnd_fold_votes t _ _) hV1
  refine ⟨?_, ?_, ?_⟩
  · rw [countIf_append, countIf_append, h1, h3,
      (sessionPubs_votingStart r t _).1]
  · rw [countIf_append, countIf_append, h2, h4,
      (sessionPubs_votingStart r t _).2]
  · simp only [handleVotingStart]
    exact votingStart_foldl_continueVotes r _ _ hV2

theorem sessionPubs_votingEndCase (w : World) (s : Session) (r : Round)
    (t : Int) (st : Store) (hw : WorldContinue w)
    (hst : ContinueVotes st) :
    countIf (handleVotingEnd s r t (fillVotes w r st)).2
      isSessionStartPub = 0 ∧
    countIf (handleVotingEnd s r t (fillVotes w r st)).2
      isSessionEndPub = 0 ∧
    ContinueVotes (handleVotingEnd s r t (fillVotes w r st)).1 := by
  have hV : ContinueVotes (fillVotes w r st) :=
    fillVotes_continueVotes r hst hw
  obtain ⟨_, hf2, hf3, hf4, _⟩ := votingEnd_fold_continue s r t
    (getActiveLobbies (fillVotes w r st)) (fillVotes w r st) hV
  simp only [handleVotingEnd]
  refine ⟨?_, ?_, hf4⟩
  · have hc : countIf (((t : Int), Action.invoke .votingEnd) ::
        (foldLobbies (votingEndLobbyStep s r t) (fillVotes w r st)
          (getActiveLobbies (fillVotes w r st))).2) isSessionStartPub =
        countIf [((t : Int), Action.invoke .votingEnd)] isSessionStartPub +
        countIf (foldLobbies (votingEndLobbyStep s r t) (fillVotes w r st)
          (getActiveLobbies (fillVotes w r st))).2 isSessionStartPub := by
      rw [← countIf_append]
      rfl
    rw [hc, hf3]
    rfl
  · have hc : countIf (((t : Int), Action.invoke .votingEnd) ::
        (foldLobbies (votingEndLobbyStep s r t) (fillVotes w r st)
          (getActiveLobbies (fillVotes w r st))).2) isSessionEndPub =
        countIf [((t : Int), Action.invoke .votingEnd)] isSessionEndPub +
        countIf (foldLobbies (votingEndLobbyStep s r t) (fillVotes w r st)
          (getActiveLobbies (fillVotes w r st))).2 isSessionEndPub := by
      rw [← countIf_append]
      rfl
    rw [hc, hf2]
    rfl

/-- Events between SESSION_START and SESSION_END publish neither
session-start nor session-end, and preserve continue-resolving vote
lists. -/
theorem processEvent_mid (w : World) (s : Session) (e : Event) (t : Int)
    (st : Store) (hw : WorldContinue w) (hst : ContinueVotes st)
    (h1 : e.type ≠ .SESSION_START) (h2 : e.type ≠ .SESSION_END) :
    countIf (processEvent w s e t st).2 isSessionStartPub = 0 ∧
    countIf (processEvent w s e t st).2 isSessionEndPub = 0 ∧
    ContinueVotes (processEvent w s e t st).1 := by
  obtain ⟨ty, ti, ro⟩ := e
  cases ty with
  | SESSION_START => exact absurd rfl h1
  | SESSION_END => exact absurd rfl h2
  | AI_MESSAGE_START =>
    cases ro with
    | none => exact ⟨rfl, rfl, hst⟩
    | some r => exact ⟨countIf_two rfl rfl, countIf_two rfl rfl, hst⟩
  | AI_MESSAGE_END =>
    cases ro with
    | none => exact ⟨rfl, rfl, hst⟩
    | some r =>
      refine ⟨?_, ?_, hst⟩
      · rw [show (processEvent w s
            { type := .AI_MESSAGE_END, time := ti, round := some r }
            t st).2 =
            (handleAiMessageEnd r t st).2 ++
            (handleRoundStart r t (handleAiMessageEnd r t st).1).2 from rfl,
          countIf_append, (sessionPubs_aiMessageEnd r t st).1,
          (sessionPubs_roundStart r t _).1]
      · rw [show (processEvent w s
            { type := .AI_MESSAGE_END, time := ti, round := some r }
            t st).2 =
            (handleAiMessageEnd r t st).2 ++
            (handleRoundStart r t (handleAiMessageEnd r t st).1).2 from rfl,
          countIf_append, (sessionPubs_aiMessageEnd r t st).2,
          (sessionPubs_roundStart r t _).2]
  | ROUND_START =>
    cases ro with
    | none => exact ⟨rfl, rfl, hst⟩
    | some r => exact ⟨rfl, rfl, hst⟩
  | ROUND_END =>
    cases ro with
    | none => exact ⟨rfl, rfl, hst⟩
    | some r =>
      have hV1 : ContinueVotes (handleRoundEnd r t st).1 := hst
      have hV2 : ContinueVotes (handleEliminationStart w s r t
          (handleRoundEnd r t st).1).1 := by
        refine continueVotes_of_votes_eq ?_ hV1
        simp only [handleEliminationStart]
        exact elimStart_fold_votes w r t _ _
      obtain ⟨he1, he2, he3⟩ := sessionPubs_eliminationEndCase r t
        (handleEliminationStart w s r t (handleRoundEnd r t st).1).1 hV2
      have hes := sessionPubs_elimStart_fold w r t
        (getActiveLobbies (handleRoundEnd r t st).1)
        (handleRoundEnd r t st).1
      refine ⟨?_, ?_, he3⟩
      · rw [show (processEvent w s
            { type := .ROUND_END, time := ti, round := some r } t st).2 =
            (handleRoundEnd r t st).2 ++
            (handleEliminationStart w s r t (handleRoundEnd r t st).1).2 ++
            (eliminationEndCase r t (handleEliminationStart w s r t
              (handleRoundEnd r t st).1).1).2 from rfl]
        rw [countIf_append, countIf_append,
          (sessionPubs_roundEnd r t st).1, he1]
        have hc : countIf (handleEliminationStart w s r t
            (handleRoundEnd r t st).1).2 isSessionStartPub = 0 := by
          simp only [handleEliminationStart]
          have := hes.1
          rw [show countIf (((t : Int),
              Action.invoke .eliminationStart) ::
              (foldLobbies (elimStartLobbyStep w r t)
                (handleRoundEnd r t st).1
                (getActiveLobbies (handleRoundEnd r t st).1)).2)
              isSessionStartPub =
              countIf [((t : Int), Action.invoke .eliminationStart)]
                isSessionStartPub +
              countIf (foldLobbies (elimStartLobbyStep w r t)
                (handleRoundEnd r t st).1
                (getActiveLobbies (handleRoundEnd r t st).1)).2
                isSessionStartPub from by rw [← countIf_append]; rfl]
          rw [this]
          rfl
        rw [hc]
      · rw [show (processEvent w s
            { type := .ROUND_END, time := ti, round := some r } t st).2 =
            (handleRoundEnd r t st).2 ++
            (handleEliminationStart w s r t (handleRoundEnd r t st).1).2 ++
            (eliminationEndCase r t (handleEliminationStart w s r t
              (handleRoundEnd r t st).1).1).2 from rfl]
        rw [countIf_append, countIf_append,
          (sessionPubs_roundEnd r t st).2, he2]
        have hc : countIf (handleEliminationStart w s r t
            (handleRoundEnd r t st).1).2 isSessionEndPub = 0 := by
          simp only [handleEliminationStart]
          have := hes.2
          rw [show countIf (((t : Int),
              Action.invoke .eliminationStart) ::
              (foldLobbies (elimStartLobbyStep w r t)
                (handleRoundEnd r t st).1
                (getActiveLobbies (handleRoundEnd r t st).1)).2)
              isSessionEndPub =
              countIf [((t : Int), Action.invoke .eliminationStart)]
                isSessionEndPub +
              countIf (foldLobbies (elimStartLobbyStep w r t)
                (handleRoundEnd r t st).1
                (getActiveLobbies (handleRoundEnd r t st).1)).2
                isSessionEndPub from by rw [← countIf_append]; rfl]
          rw [this]
          rfl
        rw [hc]
  | ELIMINATION_START =>
    cases ro with
    | none => exact ⟨rfl, rfl, hst⟩
    | some r => exact ⟨rfl, rfl, hst⟩
  | ELIMINATION_END =>
    cases ro with
    | none => exact ⟨rfl, rfl, hst⟩
    | some r => exact sessionPubs_eliminationEndCase r t st hst
  | VOTING_START =>
    cases ro with
    | none => exact ⟨rfl, rfl, hst⟩
    | some r => exact ⟨rfl, rfl, hst⟩
  | VOTING_END =>
    cases ro with
    | none => exact ⟨rfl, rfl, hst⟩
    | some r =>
      obtain ⟨hv1, hv2, hv3⟩ := sessionPubs_votingEndCase w s r t st hw hst
      refine ⟨?_, ?_, hv3⟩
      · rw [show (processEvent w s
            { type := .VOTING_END, time := ti, round := some r } t st).2 =
            (handleVotingEnd s r t (fillVotes w r st)).2 ++
            (handleAiMessageStart w r t
              (handleVotingEnd s r t (fillVotes w r st)).1).2 from rfl,
          countIf_append, hv1, (sessionPubs_aiMessageStart w r t _).1]
      · rw [show (processEvent w s
            { type := .VOTING_END, time := ti, round := some r } t st).2 =
            (handleVotingEnd s r t (fillVotes w r st)).2 ++
            (handleAiMessageStart w r t
              (handleVotingEnd s r t (fillVotes w r st)).1).2 from rfl,
          countIf_append, hv2, (sessionPubs_aiMessageStart w r t _).2]

theorem distribute_length_pos {xs : List Player} {m : Nat}
    (h : xs.length ≠ 0) :
    (distributePlayersToLobbies xs m).length ≠ 0 := by
  simp only [distributePlayersToLobbies, if_neg h, List.length_map,
    List.length_range]
  rw [numLobbiesFor_eq]
  have hle := le_max_left 1 (xs.length / m)
  omega

/-- Properties of the SESSION_START handler: the resulting hot store has
empty vote lists (everything was flushed), no session-end is published, the
session-start broadcast is published exactly once when players exist and
not at all when the player set is empty (in which case no lobby exists
afterwards either). -/
theorem handleSessionStart_props (w : World) (s : Session) (t : Int)
    (st : Store) (hshuffle : ∀ l, (w.shuffle l).length = l.length) :
    ContinueVotes (handleSessionStart w s t st).1 ∧
    countIf (handleSessionStart w s t st).2 isSessionEndPub = 0 ∧
    (s.players ≠ [] →
      countIf (handleSessionStart w s t st).2 isSessionStartPub = 1) ∧
    (s.players = [] →
      countIf (handleSessionStart w s t st).2 isSessionStartPub = 0 ∧
      (handleSessionStart w s t st).1.lobbies = [] ∧
      (handleSessionStart w s t st).2 =
        [(t, .invoke .sessionStart), (t, .flush)]) := by
  have hvotes : (handleSessionStart w s t st).1.votes = fun _ _ => [] := by
    simp only [handleSessionStart]
    split
    · rfl
    · split <;> rfl
  have hdistzero : ∀ (assignment : List (Nat × List Player))
      (p : Action → Bool),
      (∀ lid wl, p (Action.setPlayerStatus lid wl .ACTIVE) = false) →
      (∀ lid, p (Action.pubLobbyCreated lid) = false) →
      countIf (assignment.flatMap (fun a =>
        a.2.map (fun q => ((t : Int),
          Action.setPlayerStatus a.1 q.wallet_address .ACTIVE)) ++
        [((t : Int), Action.pubLobbyCreated a.1)])) p = 0 := by
    intro assignment p hp1 hp2
    apply countIf_eq_zero
    intro x hx
    obtain ⟨a, _, hxa⟩ := List.mem_flatMap.mp hx
    rcases List.mem_append.mp hxa with hm | hm
    · obtain ⟨q, _, hqe⟩ := List.mem_map.mp hm
      rw [← hqe]
      exact hp1 a.1 q.wallet_address
    · rw [List.mem_singleton.mp hm]
      exact hp2 a.1
  refine ⟨?_, ?_, ?_, ?_⟩
  · intro rid lid
    rw [hvotes]
    exact Nat.le_refl 0
  · simp only [handleSessionStart]
    split
    · rfl
    · split
      · rw [countIf_append, hdistzero _ isSessionEndPub
          (fun _ _ => rfl) (fun _ => rfl)]
        rfl
      · rw [countIf_append, countIf_append, hdistzero _ isSessionEndPub
          (fun _ _ => rfl) (fun _ => rfl)]
        rfl
  · intro hp
    have hplen : ¬ s.players.length = 0 := by simpa using hp
    simp only [handleSessionStart]
    rw [if_neg hplen]
    have hxs : (w.shuffle ((s.players.map
        (fun p => p.wallet_address)).map (cachedPlayer s.id))).length ≠
        0 := by
      rw [hshuffle]
      simpa using hplen
    rw [if_neg (distribute_length_pos hxs)]
    rw [countIf_append, countIf_append, hdistzero _ isSessionStartPub
      (fun _ _ => rfl) (fun _ => rfl)]
    rfl
  · intro hp
    have hplen : s.players.length = 0 := by simp [hp]
    simp only [handleSessionStart]
    rw [if_pos hplen]
    exact ⟨rfl, rfl, rfl⟩

theorem runMonitor_succ_some {w : World} {s : Session} {n : Nat}
    {now : Int} {st : Store} {e : Event}
    (he : getNextEvent s now = some e) :
    runMonitor w s (n + 1) now st =
      if e.type = .SESSION_END then
        processEvent w s e (max now e.time) st
      else
        ((runMonitor w s n (max now e.time)
          (processEvent w s e (max now e.time) st).1).1,
         (processEvent w s e (max now e.time) st).2 ++
         (runMonitor w s n (max now e.time)
           (processEvent w s e (max now e.time) st).1).2) := by
  simp only [runMonitor, he]

/-- After SESSION_START has been passed (now at or beyond the session
start), a monitoring run with continue-resolving votes publishes
session-end exactly once and session-start never. -/
theorem runMonitor_after_start (w : World) (s : Session)
    (hw : WorldContinue w) : ∀ (fuel : Nat) (now : Int) (st : Store),
    s.start_time ≤ now → now < s.end_time → ContinueVotes st →
    futureCount s now < fuel →
    countIf (runMonitor w s fuel now st).2 isSessionStartPub = 0 ∧
    countIf (runMonitor w s fuel now st).2 isSessionEndPub = 1 := by
  intro fuel
  induction fuel with
  | zero =>
    intro now st _ _ _ hf
    omega
  | succ n ih =>
    intro now st hge hlt hV hf
    obtain ⟨e, he⟩ := getNextEvent_isSome hlt
    rw [runMonitor_succ_some he]
    by_cases hty : e.type = .SESSION_END
    · rw [if_pos hty]
      obtain ⟨ty, ti, ro⟩ := e
      simp only at hty
      subst hty
      cases ro <;> exact ⟨rfl, rfl⟩
    · rw [if_neg hty]
      have hty2 : e.type ≠ .SESSION_START := by
        intro hss
        have := sessionStart_only_before_start
          (getNextEvent_time_lt he).1 hss
        omega
      obtain ⟨hm1, hm2, hm3⟩ := processEvent_mid w s e
        (max now e.time) st hw hV hty2 hty
      have hlte := (getNextEvent_time_lt he).2
      have hmax : max now e.time = e.time :=
        max_eq_right (le_of_lt hlte)
      have hnext : futureCount s e.time < n := by
        have := futureCount_decreases he
        omega
      have hge2 : s.start_time ≤ e.time := by omega
      have hend2 : e.time < s.end_time :=
        nextEvent_time_lt_end hge hlt he hty
      rw [hmax] at hm1 hm2 hm3 ⊢
      obtain ⟨ih1, ih2⟩ := ih e.time
        (processEvent w s e e.time st).1 hge2 hend2 hm3 hnext
      rw [countIf_append, countIf_append, hm1, hm2, ih1, ih2]
      exact ⟨rfl, rfl⟩

/-- C4 (amended).  For a session picked before its start, with at least one
registered player, round instants at or after the session start, a
length-preserving shuffle, and vote lists that always resolve to continue:
the monitoring run publishes exactly one session-start and exactly one
session-end.  (Without the continue-votes condition the claim fails: a
share vote makes handleVotingEnd run the session-end handler, adding an
extra session-end publication before the SESSION_END one; and a session
with no players publishes no session-start at all.) -/
theorem session_pubs_once (w : World) (s : Session) (fuel : Nat)
    (now : Int) (st : Store)
    (h0 : now < s.start_time) (hse : s.start_time < s.end_time)
    (hp : s.players ≠ [])
    (hr : ∀ r ∈ s.rounds, s.start_time ≤ r.ai_message_start ∧
      s.start_time ≤ r.ai_message_end ∧ s.start_time ≤ r.start_time ∧
      s.start_time ≤ r.end_time ∧ s.start_time ≤ r.elimination_start ∧
      s.start_time ≤ r.elimination_end ∧
      s.start_time ≤ r.voting_start_time ∧
      s.start_time ≤ r.voting_end_time)
    (hw : WorldContinue w)
    (hshuffle : ∀ l, (w.shuffle l).length = l.length)
    (hfuel : futureCount s now < fuel) :
    countIf (runMonitor w s fuel now st).2 isSessionStartPub = 1 ∧
    countIf (runMonitor w s fuel now st).2 isSessionEndPub = 1 := by
  cases fuel with
  | zero => omega
  | succ n =>
    have he := first_event_is_sessionStart h0 hse hr
    rw [runMonitor_succ_some he]
    have hty : ¬ ((ssEvent s).type = .SESSION_END) := by
      simp [ssEvent]
    rw [if_neg hty]
    have hmaxT : max now (ssEvent s).time = s.start_time := by
      have hsst : (ssEvent s).time = s.start_time := rfl
      omega
    rw [hmaxT]
    have hproc : processEvent w s (ssEvent s) s.start_time st =
        handleSessionStart w s s.start_time st := rfl
    rw [hproc]
    obtain ⟨hs1, hs2, hs3, _⟩ := handleSessionStart_props w s
      s.start_time st hshuffle
    have hfc2 : futureCount s s.start_time < n := by
      have hdec := futureCount_decreases he
      have hsst : (ssEvent s).time = s.start_time := rfl
      rw [hsst] at hdec
      omega
    obtain ⟨ih1, ih2⟩ := runMonitor_after_start w s hw n s.start_time
      (handleSessionStart w s s.start_time st).1 (le_refl _) hse hs1 hfc2
    rw [countIf_append, countIf_append, hs3 hp, hs2, ih1, ih2]
    exact ⟨rfl, rfl⟩

theorem session_pubs_once_witness :
    countIf (runMonitor exElimWorld exSessionOneRound 11 (-1)
      Store.empty).2 isSessionStartPub = 1 ∧
    countIf (runMonitor exElimWorld exSessionOneRound 11 (-1)
      Store.empty).2 isSessionEndPub = 1 :=
  session_pubs_once exElimWorld exSessionOneRound 11 (-1) Store.empty
    (by decide) (by decide) (by decide) (by decide)
    (fun rid lid => Nat.le_refl 0) (fun l => rfl) (by decide)

theorem handleEliminationStart_empty {w : World} {s : Session} {r : Round}
    {t : Int} {st : Store} (hact : getActiveLobbies st = []) :
    handleEliminationStart w s r t st =
      (st, [(t, .invoke .eliminationStart)]) := by
  simp only [handleEliminationStart, hact, foldLobbies]

theorem handleEliminationEnd_empty {r : Round} {t : Int} {st : Store}
    (hact : getActiveLobbies st = []) :
    handleEliminationEnd r t st = (st, [(t, .invoke .eliminationEnd)]) := by
  simp only [handleEliminationEnd, hact, List.map_nil]

theorem gameEndChecks_empty {t : Int} {st : Store}
    (hact : getActiveLobbies st = []) :
    gameEndChecks t st = (st, []) := by
  simp only [gameEndChecks, hact, foldLobbies]

theorem handleVotingStart_empty {r : Round} {t : Int} {st : Store}
    (hact : getActiveLobbies st = []) :
    handleVotingStart r t st =
      (st, [(t, .invoke .votingStart),
        (t, .pubVotingStart r.round_number)]) := by
  simp only [handleVotingStart, hact, List.foldl_nil]

theorem handleVotingEnd_empty {s : Session} {r : Round} {t : Int}
    {st : Store} (hact : getActiveLobbies st = []) :
    handleVotingEnd s r t st = (st, [(t, .invoke .votingEnd)]) := by
  simp only [handleVotingEnd, hact, foldLobbies]

theorem eliminationEndCase_empty {r : Round} {t : Int} {st : Store}
    (hact : getActiveLobbies st = []) :
    eliminationEndCase r t st =
      (st, [(t, .invoke .eliminationEnd), (t, .invoke .votingStart),
        (t, .pubVotingStart r.round_number)]) := by
  simp only [eliminationEndCase, handleEliminationEnd_empty hact,
    gameEndChecks_empty hact, handleVotingStart_empty hact]
  rfl

theorem getActiveLobbies_of_empty {st : Store} (hl : st.lobbies = []) :
    getActiveLobbies st = [] := by
  rw [getActiveLobbies, hl]
  rfl

/-- For an event after SESSION_START on a hot store with no lobbies: no
session-start, no lobby-directed broadcast, session-end exactly for the
SESSION_END event, and the lobby set stays empty. -/
theorem processEvent_empty (w : World) (s : Session) (e : Event) (t : Int)
    (st : Store) (hl : st.lobbies = []) (h1 : e.type ≠ .SESSION_START) :
    countIf (processEvent w s e t st).2 isSessionStartPub = 0 ∧
    countIf (processEvent w s e t st).2 isLobbyPub = 0 ∧
    (processEvent w s e t st).1.lobbies = [] ∧
    (e.type ≠ .SESSION_END →
      countIf (processEvent w s e t st).2 isSessionEndPub = 0) ∧
    (e.type = .SESSION_END →
      countIf (processEvent w s e t st).2 isSessionEndPub = 1) := by
  have hact : getActiveLobbies st = [] := getActiveLobbies_of_empty hl
  obtain ⟨ty, ti, ro⟩ := e
  cases ty with
  | SESSION_START => exact absurd rfl h1
  | SESSION_END =>
    cases ro <;>
      exact ⟨rfl, rfl, rfl, fun h => absurd rfl h, fun _ => rfl⟩
  | AI_MESSAGE_START =>
    cases ro with
    | none => exact ⟨rfl, rfl, hl, fun _ => rfl, fun h => by simp at h⟩
    | some r => exact ⟨rfl, rfl, hl, fun _ => rfl, fun h => by simp at h⟩
  | AI_MESSAGE_END =>
    cases ro with
    | none => exact ⟨rfl, rfl, hl, fun _ => rfl, fun h => by simp at h⟩
    | some r => exact ⟨rfl, rfl, hl, fun _ => rfl, fun h => by simp at h⟩
  | ROUND_START =>
    cases ro with
    | none => exact ⟨rfl, rfl, hl, fun _ => rfl, fun h => by simp at h⟩
    | some r => exact ⟨rfl, rfl, hl, fun _ => rfl, fun h => by simp at h⟩
  | ROUND_END =>
    cases ro with
    | none => exact ⟨rfl, rfl, hl, fun _ => rfl, fun h => by simp at h⟩
    | some r =>
      have hre : processEvent w s
          { type := .ROUND_END, time := ti, round := some r } t st =
          ((st, ([(t, .invoke .roundEnd),
              (t, .pubRoundEnd r.round_number)] : Trace) ++
            [(t, .invoke .eliminationStart)] ++
            [(t, .invoke .eliminationEnd), (t, .invoke .votingStart),
             (t, .pubVotingStart r.round_number)]).1,
           ([(t, .invoke .roundEnd),
              (t, .pubRoundEnd r.round_number)] : Trace) ++
            [(t, .invoke .eliminationStart)] ++
            [(t, .invoke .eliminationEnd), (t, .invoke .votingStart),
             (t, .pubVotingStart r.round_number)]) := by
        show ((eliminationEndCase r t (handleEliminationStart w s r t
            (handleRoundEnd r t st).1).1).1,
          (handleRoundEnd r t st).2 ++
          (handleEliminationStart w s r t (handleRoundEnd r t st).1).2 ++
          (eliminationEndCase r t (handleEliminationStart w s r t
            (handleRoundEnd r t st).1).1).2) = _
        rw [show (handleRoundEnd r t st).1 = st from rfl,
          handleEliminationStart_empty hact]
        rw [show ((st,
            ([(t, Action.invoke HandlerTag.eliminationStart)] :
              Trace)) : Store × Trace).1 = st from rfl,
          eliminationEndCase_empty hact]
        rfl
      rw [hre]
      exact ⟨rfl, rfl, hl, fun _ => rfl, fun h => by simp at h⟩
  | ELIMINATION_START =>
    cases ro with
    | none => exact ⟨rfl, rfl, hl, fun _ => rfl, fun h => by simp at h⟩
    | some r => exact ⟨rfl, rfl, hl, fun _ => rfl, fun h => by simp at h⟩
  | ELIMINATION_END =>
    cases ro with
    | none => exact ⟨rfl, rfl, hl, fun _ => rfl, fun h => by simp at h⟩
    | some r =>
      have hee : processEvent w s
          { type := .ELIMINATION_END, time := ti, round := some r } t st =
          (st, [(t, .invoke .eliminationEnd), (t, .invoke .votingStart),
            (t, .pubVotingStart r.round_number)]) := by
        show eliminationEndCase r t st = _
        exact eliminationEndCase_empty hact
      rw [hee]
      exact ⟨rfl, rfl, hl, fun _ => rfl, fun h => by simp at h⟩
  | VOTING_START =>
    cases ro with
    | none => exact ⟨rfl, rfl, hl, fun _ => rfl, fun h => by simp at h⟩
    | some r => exact ⟨rfl, rfl, hl, fun _ => rfl, fun h => by simp at h⟩
  | VOTING_END =>
    cases ro with
    | none => exact ⟨rfl, rfl, hl, fun _ => rfl, fun h => by simp at h⟩
    | some r =>
      have hactf : getActiveLobbies (fillVotes w r st) = [] :=
        getActiveLobbies_of_empty hl
      have hve : processEvent w s
          { type := .VOTING_END, time := ti, round := some r } t st =
          ((fillVotes w r st),
           ([(t, .invoke .votingEnd)] : Trace) ++
           [(t, .invoke .aiMessageStart),
            (t, .pubAiMessageStart r.round_number)]) := by
        show ((handleAiMessageStart w r t
            (handleVotingEnd s r t (fillVotes w r st)).1).1,
          (handleVotingEnd s r t (fillVotes w r st)).2 ++
          (handleAiMessageStart w r t
            (handleVotingEnd s r t (fillVotes w r st)).1).2) = _
        rw [handleVotingEnd_empty hactf]
        rfl
      rw [hve]
      exact ⟨rfl, rfl, hl, fun _ => rfl, fun h => by simp at h⟩

theorem handleSessionStart_emptyPlayers {w : World} {s : Session}
    {t : Int} {st : Store} (hp : s.players.length = 0) :
    handleSessionStart w s t st =
      (st.flushAll, [(t, .invoke .sessionStart), (t, .flush)]) := by
  simp only [handleSessionStart, if_pos hp]

/-- After SESSION_START on a lobby-free hot store, the run never publishes
session-start or any lobby-directed broadcast, and publishes session-end
exactly once (at the SESSION_END event). -/
theorem runMonitor_after_start_empty (w : World) (s : Session) :
    ∀ (fuel : Nat) (now : Int) (st : Store),
    s.start_time ≤ now → now < s.end_time → st.lobbies = [] →
    futureCount s now < fuel →
    countIf (runMonitor w s fuel now st).2 isSessionStartPub = 0 ∧
    countIf (runMonitor w s fuel now st).2 isSessionEndPub = 1 ∧
    countIf (runMonitor w s fuel now st).2 isLobbyPub = 0 := by
  intro fuel
  induction fuel with
  | zero =>
    intro now st _ _ _ hf
    omega
  | succ n ih =>
    intro now st hge hlt hl hf
    obtain ⟨e, he⟩ := getNextEvent_isSome hlt
    rw [runMonitor_succ_some he]
    by_cases hty : e.type = .SESSION_END
    · rw [if_pos hty]
      obtain ⟨ty, ti, ro⟩ := e
      simp only at hty
      subst hty
      cases ro <;> exact ⟨rfl, rfl, rfl⟩
    · rw [if_neg hty]
      have hty2 : e.type ≠ .SESSION_START := by
        intro hss
        have := sessionStart_only_before_start
          (getNextEvent_time_lt he).1 hss
        omega
      obtain ⟨hm1, hm2, hm3, hm4, _⟩ := processEvent_empty w s e
        (max now e.time) st hl hty2
      have hlte := (getNextEvent_time_lt he).2
      have hmax : max now e.time = e.time :=
        max_eq_right (le_of_lt hlte)
      have hnext : futureCount s e.time < n := by
        have := futureCount_decreases he
        omega
      have hge2 : s.start_time ≤ e.time := by omega
      have hend2 : e.time < s.end_time :=
        nextEvent_time_lt_end hge hlt he hty
      have hm4b := hm4 hty
      rw [hmax] at hm1 hm2 hm3 hm4b ⊢
      obtain ⟨ih1, ih2, ih3⟩ := ih e.time
        (processEvent w s e e.time st).1 hge2 hend2 hm3 hnext
      rw [countIf_append, countIf_append, countIf_append,
        hm1, hm2, hm4b, ih1, ih2, ih3]
      exact ⟨rfl, rfl, rfl⟩

/-- C6 (amended).  For a session whose registered player set is empty,
picked before its start (rounds within the session window): handling
SESSION_START flushes the hot store and creates no lobbies, the whole run
emits no lobby-directed traffic (no lobby-created, elimination-start,
elimination-end, voting-result or game-end broadcast), session-end is still
published exactly once at SESSION_END — but session-start is NOT published
(the handler returns before reaching its publication), contrary to the
original claim.  Session-level round broadcasts (ai-message, round, voting
start events) still occur. -/
theorem emptySession_run (w : World) (s : Session) (fuel : Nat)
    (now : Int) (st : Store)
    (h0 : now < s.start_time) (hse : s.start_time < s.end_time)
    (hp : s.players = [])
    (hr : ∀ r ∈ s.rounds, s.start_time ≤ r.ai_message_start ∧
      s.start_time ≤ r.ai_message_end ∧ s.start_time ≤ r.start_time ∧
      s.start_time ≤ r.end_time ∧ s.start_time ≤ r.elimination_start ∧
      s.start_time ≤ r.elimination_end ∧
      s.start_time ≤ r.voting_start_time ∧
      s.start_time ≤ r.voting_end_time)
    (hfuel : futureCount s now < fuel) :
    countIf (runMonitor w s fuel now st).2 isSessionStartPub = 0 ∧
    countIf (runMonitor w s fuel now st).2 isSessionEndPub = 1 ∧
    countIf (runMonitor w s fuel now st).2 isLobbyPub = 0 := by
  cases fuel with
  | zero => omega
  | succ n =>
    have he := first_event_is_sessionStart h0 hse hr
    rw [runMonitor_succ_some he]
    have hty : ¬ ((ssEvent s).type = .SESSION_END) := by
      simp [ssEvent]
    rw [if_neg hty]
    have hmaxT : max now (ssEvent s).time = s.start_time := by
      have hsst : (ssEvent s).time = s.start_time := rfl
      omega
    rw [hmaxT]
    have hproc : processEvent w s (ssEvent s) s.start_time st =
        handleSessionStart w s s.start_time st := rfl
    rw [hproc]
    have hplen : s.players.length = 0 := by simp [hp]
    rw [handleSessionStart_emptyPlayers hplen]
    have hfc2 : futureCount s s.start_time < n := by
      have hdec := futureCount_decreases he
      have hsst : (ssEvent s).time = s.start_time := rfl
      rw [hsst] at hdec
      omega
    obtain ⟨ih1, ih2, ih3⟩ := runMonitor_after_start_empty w s n
      s.start_time st.flushAll (le_refl _) hse rfl hfc2
    rw [countIf_append, countIf_append, countIf_append, ih1, ih2, ih3]
    exact ⟨rfl, rfl, rfl⟩

theorem emptySession_run_witness :
    countIf (runMonitor exShareWorld exEmptySession 11 (-1)
      Store.empty).2 isSessionStartPub = 0 ∧
    countIf (runMonitor exShareWorld exEmptySession 11 (-1)
      Store.empty).2 isSessionEndPub = 1 ∧
    countIf (runMonitor exShareWorld exEmptySession 11 (-1)
      Store.empty).2 isLobbyPub = 0 :=
  emptySession_run exShareWorld exEmptySession 11 (-1) Store.empty
    (by decide) (by decide) (by decide) (by decide) (by decide)

end RitualGame
